import Mathlib

/-!
Verification of the claude-learn scraper core (URL queue, fetcher, crawl
orchestrator) against its specification.

Python strings are modelled as `List Char` (`Str`), faithful for the
ASCII inputs the scraper manipulates; `str.lower` is modelled on the
ASCII range.  External library behaviour (DNS resolution, the
`ipaddress` classification of an address, the HTTP transport, and the
HTML extractor) is supplied through explicit oracle records, while every
piece of control flow and data manipulation of the repository itself is
translated definition-by-definition from the source files
(`queue.py`, `config.py`, `fetcher.py`, `cache.py`, `discovery.py`,
`cli.py`).
-/

/-- Python strings, modelled as explicit character lists. -/
abbrev Str := List Char

/-- ASCII model of `str.lower` on a single character. -/
def lowerChar (c : Char) : Char :=
  if 'A' ≤ c ∧ c ≤ 'Z' then Char.ofNat (c.toNat + 32) else c

/-- ASCII model of `str.lower`. -/
def toLowerS (s : Str) : Str := s.map lowerChar

/-- `needle` occurs as a contiguous substring of `hay` (Python `in`). -/
def hasSub (needle : Str) : Str → Bool
  | [] => needle.isEmpty
  | c :: t => needle.isPrefixOf (c :: t) || hasSub needle t

/-- Python `str.endswith`. -/
def endsWithS (s suffix : Str) : Bool := suffix.isSuffixOf s

/-- Python `str.startswith`. -/
def startsWithS (s pre : Str) : Bool := pre.isPrefixOf s

/-- Python slicing `s[:-n]`. -/
def dropRightS (s : Str) (n : Nat) : Str := s.take (s.length - n)

/-- Python `str.rstrip("/")`: drop every trailing '/'. -/
def rstripSlash (s : Str) : Str := (s.reverse.dropWhile (· = '/')).reverse

/-- Python `str.split(c)` for a one-character separator. -/
def splitOnCharAux (c : Char) : Str → Str → List Str
  | [], acc => [acc.reverse]
  | x :: t, acc =>
    if x = c then acc.reverse :: splitOnCharAux c t []
    else splitOnCharAux c t (x :: acc)

/-- Python `str.split(c)` for a one-character separator. -/
def splitOnChar (c : Char) (s : Str) : List Str := splitOnCharAux c s []

/-- Python `str.split('=', 1)`: split at the first '=' if any. -/
def splitFirstEq : Str → Option (Str × Str)
  | [] => none
  | x :: t =>
    if x = '=' then some ([], t)
    else (splitFirstEq t).map (fun p => (x :: p.1, p.2))

/-- Python `sep.join(parts)`. -/
def intercalateS (sep : Str) : List Str → Str
  | [] => []
  | [x] => x
  | x :: y :: t => x ++ sep ++ intercalateS sep (y :: t)

/-- Hex digit character for a value below 16, uppercase (as `urllib.parse.quote`). -/
def hexDig (n : Nat) : Char :=
  if n < 10 then Char.ofNat (48 + n) else Char.ofNat (55 + n)

/-- Numeric value of a hex digit character, if it is one. -/
def hexVal (c : Char) : Option Nat :=
  if '0' ≤ c ∧ c ≤ '9' then some (c.toNat - 48)
  else if 'A' ≤ c ∧ c ≤ 'F' then some (c.toNat - 55)
  else if 'a' ≤ c ∧ c ≤ 'f' then some (c.toNat - 87)
  else none

/-- `urllib.parse.unquote`: percent-decoding, leaving malformed escapes alone
(byte-level model, faithful on the ASCII range). -/
def pctDecode : Str → Str
  | [] => []
  | '%' :: a :: b :: t =>
    match hexVal a, hexVal b with
    | some x, some y => Char.ofNat (16 * x + y) :: pctDecode t
    | _, _ => '%' :: pctDecode (a :: b :: t)
  | c :: t => c :: pctDecode t

/-- The characters `urllib.parse.quote` never escapes (letters, digits, `_.-~`). -/
def quoteSafe (c : Char) : Bool :=
  c.isAlphanum || c = '_' || c = '.' || c = '-' || c = '~'

/-- `urllib.parse.quote_plus` with empty `safe` (as used by `urlencode`):
space becomes '+', safe characters stay, the rest is percent-escaped
(byte-level model, faithful on the ASCII range). -/
def quotePlus (s : Str) : Str :=
  s.foldr
    (fun c acc =>
      if quoteSafe c then c :: acc
      else if c = ' ' then '+' :: acc
      else '%' :: hexDig (c.toNat / 16) :: hexDig (c.toNat % 16) :: acc)
    []

/-- The name/value decoding applied by `parse_qsl`: '+' to space, then unquote. -/
def unquotePlusS (s : Str) : Str :=
  pctDecode (s.map (fun c => if c = '+' then ' ' else c))

/-- `urllib.parse.parse_qsl(qs, keep_blank_values=True)`: split the query on
'&', drop empty fields, split each field at its first '=' (a field with no
'=' keeps a blank value), and decode names and values. -/
def parse_qsl (qs : Str) : List (Str × Str) :=
  (splitOnChar '&' qs).filterMap fun nv =>
    if nv = [] then none
    else
      match splitFirstEq nv with
      | none => some (unquotePlusS nv, [])
      | some (name, value) => some (unquotePlusS name, unquotePlusS value)

/-- One grouping step of `parse_qs`: append the value to an existing key's
list (first-occurrence key order) or append a new group. -/
def qsStep (acc : List (Str × List Str)) (kv : Str × Str) : List (Str × List Str) :=
  if acc.any (fun g => g.1 = kv.1) then
    acc.map (fun g => if g.1 = kv.1 then (g.1, g.2 ++ [kv.2]) else g)
  else acc ++ [(kv.1, [kv.2])]

/-- `urllib.parse.parse_qs(qs, keep_blank_values=True)`: group the pairs of
`parse_qsl` into an ordered multi-valued mapping via `qsStep`. -/
def parse_qs (qs : Str) : List (Str × List Str) :=
  (parse_qsl qs).foldl qsStep []

/-- `urllib.parse.urlencode(params, doseq=True)` on an ordered multi-valued
mapping. -/
def urlencodeDoseq (params : List (Str × List Str)) : Str :=
  intercalateS ['&']
    (params.foldr
      (fun kv acc => kv.2.map (fun v => quotePlus kv.1 ++ ['='] ++ quotePlus v) ++ acc)
      [])

/-- The six components produced by `urllib.parse.urlparse`; the claims about
URL handling are stated over this parsed form. -/
structure ParsedURL where
  scheme : Str
  netloc : Str
  path : Str
  params : Str
  query : Str
  fragment : Str
deriving DecidableEq

/-- `urllib.parse.urlunparse`, via `urlunsplit`. -/
def urlunparse (scheme netloc path params query fragment : Str) : Str :=
  let url := if params ≠ [] then path ++ [';'] ++ params else path
  let url :=
    if netloc ≠ [] ∨ (url ≠ [] ∧ url.take 2 = ['/', '/']) then
      ['/', '/'] ++ netloc ++
        (if url ≠ [] ∧ url.take 1 ≠ ['/'] then ['/'] ++ url else url)
    else url
  let url := if scheme ≠ [] then scheme ++ [':'] ++ url else url
  let url := if query ≠ [] then url ++ ['?'] ++ query else url
  if fragment ≠ [] then url ++ ['#'] ++ fragment else url

/-- String literal as a `Str`. -/
def lit (s : String) : Str := s.toList

/-- `_TRACKING_PARAMS` from `queue.py`: query parameters stripped during
normalization. -/
def TRACKING_PARAMS : List Str :=
  [lit "utm_source", lit "utm_medium", lit "utm_campaign", lit "utm_term",
   lit "utm_content", lit "ref", lit "source", lit "fbclid", lit "gclid",
   lit "mc_cid", lit "mc_eid"]

/-- The netloc rebinding inside `normalize_url`: strip the default port for
the scheme (":443" on https, ":80" on http). -/
def normPort (scheme netloc : Str) : Str :=
  if scheme = lit "https" ∧ endsWithS netloc (lit ":443") then dropRightS netloc 4
  else if scheme = lit "http" ∧ endsWithS netloc (lit ":80") then dropRightS netloc 3
  else netloc

/-- The path rebinding inside `normalize_url`: strip trailing slashes but keep
a bare "/". -/
def normPath (path : Str) : Str :=
  if rstripSlash path = [] then ['/'] else rstripSlash path

/-- The query rebinding inside `normalize_url`: drop tracking parameters and
re-encode what remains ("" when nothing remains or the query was empty). -/
def normQuery (query : Str) : Str :=
  if query ≠ [] then
    if (parse_qs query).filter (fun kv => ¬ toLowerS kv.1 ∈ TRACKING_PARAMS) ≠ [] then
      urlencodeDoseq ((parse_qs query).filter (fun kv => ¬ toLowerS kv.1 ∈ TRACKING_PARAMS))
    else []
  else []

/-- `normalize_url` from `queue.py`: lowercase scheme and netloc, strip the
default port, strip trailing slashes from the path (keeping a bare "/"),
drop tracking query parameters, re-encode the remaining query, and drop the
fragment. -/
def normalize_url (p : ParsedURL) : Str :=
  urlunparse (toLowerS p.scheme) (normPort (toLowerS p.scheme) (toLowerS p.netloc))
    (normPath p.path) p.params (normQuery p.query) []

/-- URL score constants from `config.py`. -/
def SCORE_OFFICIAL_API : Int := 5
/-- URL score constants from `config.py`. -/
def SCORE_SITEMAP_DOC : Int := 5
/-- URL score constants from `config.py`. -/
def SCORE_OFFICIAL_GUIDE : Int := 4
/-- URL score constants from `config.py`. -/
def SCORE_GITHUB_README : Int := 4
/-- URL score constants from `config.py`. -/
def SCORE_REGISTRY : Int := 3
/-- URL score constants from `config.py`. -/
def SCORE_WIKI : Int := 3
/-- URL score constants from `config.py`. -/
def SCORE_BLOG : Int := 2
/-- URL score constants from `config.py`. -/
def SCORE_STACKOVERFLOW : Int := 2
/-- URL score constants from `config.py`. -/
def SCORE_WAYBACK : Int := 1
/-- URL score constants from `config.py`. -/
def SCORE_UNKNOWN : Int := 1

/-- `DOC_PATH_PATTERNS` from `config.py`. -/
def DOC_PATH_PATTERNS : List Str :=
  [lit "/docs/", lit "/api/", lit "/guide/", lit "/reference/", lit "/tutorial/",
   lit "/getting-started/", lit "/handbook/", lit "/manual/", lit "/learn/",
   lit "/quickstart/"]

/-- `SKIP_PATH_PATTERNS` from `config.py`. -/
def SKIP_PATH_PATTERNS : List Str :=
  [lit "/blog/", lit "/pricing/", lit "/login/", lit "/signup/", lit "/careers/",
   lit "/about/", lit "/contact/", lit "/legal/", lit "/privacy/", lit "/terms/",
   lit "/press/", lit "/news/"]

/-- `SOFT_FAILURE_SIGNALS` from `config.py`. -/
def SOFT_FAILURE_SIGNALS : List Str :=
  [lit "sign in", lit "access denied", lit "log in to continue",
   lit "enable javascript", lit "403 forbidden", lit "404 not found",
   lit "page not found", lit "unauthorized", lit "please log in"]

/-- `score_url` from `queue.py`: priority score from domain/path heuristics. -/
def score_url (p : ParsedURL) : Int :=
  let domain := toLowerS p.netloc
  let path := toLowerS p.path
  if [lit "/api/", lit "/reference/"].any (fun s => hasSub s path) then
    SCORE_OFFICIAL_API
  else if DOC_PATH_PATTERNS.any (fun s => hasSub s path) then
    SCORE_OFFICIAL_GUIDE
  else if hasSub (lit "raw.githubusercontent.com") domain then
    SCORE_GITHUB_README
  else if hasSub (lit "github.com") domain ∧
      (hasSub (lit "/wiki/") path ∨ hasSub (lit "/blob/") path) then
    SCORE_WIKI
  else if [lit "npmjs.com", lit "pypi.org", lit "crates.io", lit "pkg.go.dev",
      lit "rubygems.org", lit "hex.pm"].any (fun reg => hasSub reg domain) then
    SCORE_REGISTRY
  else if [lit "dev.to", lit "medium.com", lit "hashnode.dev"].any
      (fun blog => hasSub blog domain) then
    SCORE_BLOG
  else if hasSub (lit "stackoverflow.com") domain then
    SCORE_STACKOVERFLOW
  else if hasSub (lit "web.archive.org") domain then
    SCORE_WAYBACK
  else if DOC_PATH_PATTERNS.any (fun s => hasSub s path) then
    SCORE_OFFICIAL_GUIDE
  else
    SCORE_UNKNOWN

/-- The blocked download extensions listed inline in `should_skip_url`. -/
def SKIP_EXTS : List Str :=
  [lit ".zip", lit ".tar.gz", lit ".exe", lit ".dmg", lit ".png", lit ".jpg",
   lit ".gif", lit ".svg", lit ".ico"]

/-- `should_skip_url` from `queue.py`: anchor-only URLs, skip-pattern paths,
non-HTTP schemes, and file-download extensions. -/
def should_skip_url (p : ParsedURL) : Bool :=
  let path := toLowerS p.path
  if path = [] ∨ path = ['/'] then
    decide (p.fragment ≠ []) && decide (p.query = [])
  else
    let path_with_slash := if endsWithS path ['/'] then path else path ++ ['/']
    if SKIP_PATH_PATTERNS.any (fun s => hasSub s path_with_slash) then true
    else if ¬ (p.scheme = lit "http" ∨ p.scheme = lit "https" ∨ p.scheme = []) then true
    else SKIP_EXTS.any (fun ext => endsWithS path ext)

example : normalize_url ⟨lit "https", lit "Docs.Stripe.COM", lit "/api/", [], [], []⟩
    = lit "https://docs.stripe.com/api" := by decide

example : normalize_url ⟨lit "https", lit "docs.stripe.com", lit "/", [], [], []⟩
    = lit "https://docs.stripe.com/" := by decide

example : normalize_url
    ⟨lit "https", lit "d.com", lit "/api", [], lit "utm_source=google&page=1", lit "x"⟩
    = lit "https://d.com/api?page=1" := by decide

example : should_skip_url ⟨lit "https", lit "stripe.com", lit "/blog/new-feature", [], [], []⟩
    = true := by decide

example : should_skip_url ⟨lit "ftp", lit "example.com", lit "/file", [], [], []⟩
    = true := by decide

example : should_skip_url ⟨lit "ftp", lit "example.com", [], [], [], []⟩
    = false := by decide

example : score_url ⟨lit "https", lit "docs.stripe.com", lit "/api/charges", [], [], []⟩
    = 5 := by decide

/-- `ScoredURL` from `queue.py`: a URL with a priority score and metadata. -/
structure ScoredURL where
  url : ParsedURL
  score : Int
  src : Str
  depth : Nat
deriving DecidableEq

/-- `URLQueue` state from `queue.py`: `_urls` is the insertion-ordered mapping
from normalized URL to its stored `ScoredURL` (Python dict), `_fetched` the set
of normalized URLs already fetched. -/
structure URLQueue where
  max_size : Nat
  urls : List (Str × ScoredURL)
  fetched : List Str
deriving DecidableEq

/-- `URLQueue(max_size)`: a fresh queue. -/
def URLQueue.mk0 (max_size : Nat) : URLQueue := ⟨max_size, [], []⟩

/-- `URLQueue.add`: skip filtering, fetched-dedup, auto-scoring, and
keep-higher-score replacement.  Returns the "added" flag with the new state. -/
def URLQueue.add (q : URLQueue) (url : ParsedURL) (score : Option Int)
    (src : Str) (depth : Nat) : Bool × URLQueue :=
  if should_skip_url url then (false, q)
  else
    let normalized := normalize_url url
    if normalized ∈ q.fetched then (false, q)
    else
      let sc := score.getD (score_url url)
      let entry : ScoredURL := ⟨url, sc, src, depth⟩
      match q.urls.find? (fun kv => kv.1 = normalized) with
      | some kv =>
        if sc > kv.2.score then
          let replaced := q.urls.map (fun p => if p.1 = normalized then (normalized, entry) else p)
          (false, { q with urls := replaced })
        else (false, q)
      | none => (true, { q with urls := q.urls ++ [(normalized, entry)] })

/-- `URLQueue.add_many`: apply `add` to each URL, counting the `true` returns. -/
def URLQueue.add_many (q : URLQueue) (urls : List ParsedURL) (score : Option Int)
    (src : Str) (depth : Nat) : Nat × URLQueue :=
  urls.foldl
    (fun acc url =>
      let r := acc.2.add url score src depth
      (acc.1 + (if r.1 then 1 else 0), r.2))
    (0, q)

/-- `URLQueue.mark_fetched`: move the normalized form into the fetched set and
drop it from the pending map. -/
def URLQueue.mark_fetched (q : URLQueue) (url : ParsedURL) : URLQueue :=
  let normalized := normalize_url url
  { q with fetched := if normalized ∈ q.fetched then q.fetched else normalized :: q.fetched,
           urls := q.urls.filter (fun kv => kv.1 ≠ normalized) }

/-- Sort order used by `get_batch`: score descending, then path length
ascending (Python sorts by the key `(-score, len(path))`). -/
def batchRel (a b : ScoredURL) : Prop :=
  b.score < a.score ∨ (a.score = b.score ∧ a.url.path.length ≤ b.url.path.length)

instance : DecidableRel batchRel := fun a b => by
  unfold batchRel; infer_instance

/-- `URLQueue.get_batch`: the pending entries, sorted by score then path
length, truncated to `size`.  A read-only peek. -/
def URLQueue.get_batch (q : URLQueue) (size : Nat) : List ScoredURL :=
  let remaining := (q.urls.filter (fun kv => ¬ kv.1 ∈ q.fetched)).map (fun kv => kv.2)
  (List.insertionSort batchRel remaining).take size

/-- `URLQueue.mark_batch_fetched`: mark every entry of a batch fetched. -/
def URLQueue.mark_batch_fetched (q : URLQueue) (batch : List ScoredURL) : URLQueue :=
  batch.foldl (fun acc e => acc.mark_fetched e.url) q

/-- `URLQueue.pending_count`: pending map entries not in the fetched set. -/
def URLQueue.pending_count (q : URLQueue) : Nat :=
  (q.urls.filter (fun kv => ¬ kv.1 ∈ q.fetched)).length

/-- `URLQueue.fetched_count`. -/
def URLQueue.fetched_count (q : URLQueue) : Nat := q.fetched.length

/-- `URLQueue.total_count`. -/
def URLQueue.total_count (q : URLQueue) : Nat := q.urls.length + q.fetched.length

/-- The operations of the queue API, for quantifying over operation
sequences. -/
inductive QOp where
  | add (url : ParsedURL) (score : Option Int) (src : Str) (depth : Nat)
  | addMany (urls : List ParsedURL) (score : Option Int) (src : Str) (depth : Nat)
  | getBatch (size : Nat)
  | markFetched (url : ParsedURL)
  | markBatchFetched (batch : List ScoredURL)

/-- State effect of one queue operation (`get_batch` is a read-only peek). -/
def applyQOp (q : URLQueue) : QOp → URLQueue
  | .add url score src depth => (q.add url score src depth).2
  | .addMany urls score src depth => (q.add_many urls score src depth).2
  | .getBatch _ => q
  | .markFetched url => q.mark_fetched url
  | .markBatchFetched batch => q.mark_batch_fetched batch

/-- Run a sequence of queue operations from an initial state. -/
def runQOps (init : URLQueue) (ops : List QOp) : URLQueue :=
  ops.foldl applyQOp init

/-- Well-formedness of the queue representation: distinct pending keys, keys
disjoint from the fetched set, every stored entry keyed by the normalization
of its own URL, and no duplicates in the fetched set. -/
def URLQueue.Wf (q : URLQueue) : Prop :=
  (q.urls.map (fun kv => kv.1)).Nodup ∧
  (∀ kv ∈ q.urls, ¬ kv.1 ∈ q.fetched) ∧
  (∀ kv ∈ q.urls, normalize_url kv.2.url = kv.1) ∧
  q.fetched.Nodup

/-- Decimal digits of a positive number (fuel-indexed for structural
recursion). -/
def natToStrAux : Nat → Nat → Str
  | 0, _ => []
  | fuel + 1, n =>
    if n = 0 then [] else natToStrAux fuel (n / 10) ++ [Char.ofNat (48 + n % 10)]

/-- Python `str(n)` for a natural number. -/
def natToStr (n : Nat) : Str := if n = 0 then ['0'] else natToStrAux n n

/-- `FetchResult` from `fetcher.py`. -/
structure FetchResult where
  url : Str
  content : Str
  status_code : Nat
  success : Bool
  error : Str
  from_cache : Bool
  fetch_time_ms : Nat
deriving DecidableEq

/-- A cache entry as written by `PageCache.put` (`cache.py`); headers are not
used by the fetcher and are omitted. -/
structure CacheEntry where
  url : Str
  content : Str
  status_code : Nat
  cached_at : Nat
  expires_at : Nat
deriving DecidableEq

/-- The page cache contents: entries keyed by the cache key of their URL.
`cache.py` keys entries by a truncated SHA-256 of the URL; the key function is
modelled as injective (the identity on the URL string). -/
abbrev Cache := List (Str × CacheEntry)

/-- `PageCache._key`, modelled as injective keying by the exact URL string. -/
def PageCache.key (url : Str) : Str := url

/-- `PageCache.get`: look up an entry; a present-but-expired entry is deleted
and reported absent (`now > expires_at` is expiry). -/
def PageCache.get (c : Cache) (url : Str) (now : Nat) : Option CacheEntry × Cache :=
  match c.find? (fun kv => kv.1 = PageCache.key url) with
  | none => (none, c)
  | some kv =>
    if now > kv.2.expires_at then (none, c.filter (fun p => p.1 ≠ PageCache.key url))
    else (some kv.2, c)

/-- `PageCache.evict_expired`: drop every expired entry. -/
def PageCache.evict_expired (c : Cache) (now : Nat) : Cache :=
  c.filter (fun kv => ¬ now > kv.2.expires_at)

/-- `PageCache._evict_oldest`: drop the `count` entries with the smallest
`cached_at`. -/
def PageCache.evictOldest (c : Cache) (count : Nat) : Cache :=
  (List.insertionSort (fun a b => a.2.cached_at ≤ b.2.cached_at) c).drop count

/-- `PageCache.put`: evict if over the entry limit, then write the entry with
`expires_at = now + ttl`, overwriting any entry at the same key. -/
def PageCache.put (c : Cache) (maxEntries ttl : Nat) (url content : Str)
    (status_code now : Nat) : Cache :=
  let c1 :=
    if maxEntries ≤ c.length then
      let ce := PageCache.evict_expired c now
      if maxEntries ≤ ce.length then PageCache.evictOldest ce (ce.length - maxEntries + 1)
      else ce
    else c
  (c1.filter (fun kv => kv.1 ≠ PageCache.key url)) ++
    [(PageCache.key url, ⟨url, content, status_code, now, now + ttl⟩)]

/-- The classification attributes of one IP address, as computed by the
`ipaddress` standard library (external collaborator, modelled as data). -/
structure IPAddr where
  is_private : Bool
  is_loopback : Bool
  is_link_local : Bool
  is_reserved : Bool
deriving DecidableEq

/-- The disjunction of address classes rejected by `_is_private_url`. -/
def IPAddr.blockedClass (a : IPAddr) : Bool :=
  a.is_private || a.is_loopback || a.is_link_local || a.is_reserved

/-- Name-resolution environment: `ipaddress.ip_address` literal parsing and
`socket.getaddrinfo` resolution (an empty list models resolution failure). -/
structure DNS where
  parseIP : Str → Option IPAddr
  getaddrinfo : Str → List IPAddr

/-- `_is_private_url` from `fetcher.py`: SSRF check on the URL's hostname. -/
def _is_private_url (dns : DNS) (hostname : Str) : Bool :=
  if hostname = [] then true
  else if hostname = lit "localhost" ∨ hostname = lit "metadata.google.internal" then true
  else
    match dns.parseIP hostname with
    | some addr => addr.blockedClass
    | none => (dns.getaddrinfo hostname).any IPAddr.blockedClass

/-- `ScrapeConfig` from `config.py` (the fields the modelled core reads). -/
structure ScrapeConfig where
  max_urls : Nat
  concurrency : Nat
  max_retries : Nat
  retry_backoff_base : ℚ
  rate_limit_delay : ℚ
  cache_ttl : Nat
  min_content_length : Nat
deriving DecidableEq

/-- `Fetcher._is_soft_failure`: short content, or a login-wall/error signal
appearing both somewhere in the lowercased content and within its first 2000
characters. -/
def Fetcher.is_soft_failure (cfg : ScrapeConfig) (content : Str) : Bool :=
  if content.length < cfg.min_content_length then true
  else
    let content_lower := toLowerS content
    if SOFT_FAILURE_SIGNALS.any (fun signal => hasSub signal content_lower) then
      let header := content_lower.take 2000
      SOFT_FAILURE_SIGNALS.any (fun signal => hasSub signal header)
    else false

/-- Observable actions of one `fetch_one` call, in order: cache accesses,
rate-limit waits, concurrency-slot acquisitions, network requests, and
backoff sleeps. -/
inductive Effect where
  | cacheRead
  | cacheWrite
  | rateLimitWait
  | acquireSlot
  | networkGet (url : Str)
  | sleepFor (seconds : ℚ)
deriving DecidableEq

/-- Outcome of one network attempt: an HTTP response with body and elapsed
time, a retryable transport error (`httpx` timeout/connect/read), or any other
exception. -/
inductive NetResponse where
  | status (code : Nat) (text : Str) (elapsed_ms : Nat)
  | transportError (msg : Str)
  | unexpectedError (msg : Str)

/-- A URL as handed to `fetch_one`: the raw string plus the hostname that
`urlparse(url).hostname` yields for it (empty when absent). -/
structure FetchURL where
  raw : Str
  hostname : Str
deriving DecidableEq

/-- The result `fetch_one` returns for an SSRF-blocked URL. -/
def blockedResult (url : Str) : FetchResult :=
  ⟨url, [], 0, false, lit "blocked_private_url", false, 0⟩

/-- The retry loop of `Fetcher.fetch_one` (`for attempt in
range(max_retries)`), with the remaining iteration count as the structural
fuel.  Returns the result, the cache after any write-through, and the emitted
effects. -/
def fetchLoop (cfg : ScrapeConfig) (respond : Nat → NetResponse) (url : FetchURL)
    (cache : Cache) (now : Nat) :
    Nat → Nat → Str → FetchResult × Cache × List Effect
  | 0, _, last_error =>
    (⟨url.raw, [], 0, false, lit "Max retries exceeded: " ++ last_error, false, 0⟩,
     cache, [])
  | remaining + 1, attempt, last_error =>
    let effs : List Effect := [.rateLimitWait, .acquireSlot, .networkGet url.raw]
    match respond attempt with
    | .status code text elapsed_ms =>
      if 400 ≤ code ∧ code < 500 then
        (⟨url.raw, [], code, false, lit "HTTP " ++ natToStr code, false, elapsed_ms⟩,
         cache, effs)
      else if 500 ≤ code then
        let last_error' := lit "HTTP " ++ natToStr code
        if attempt < cfg.max_retries - 1 then
          let backoff := cfg.retry_backoff_base ^ (attempt + 1)
          let next := fetchLoop cfg respond url cache now remaining (attempt + 1) last_error'
          (next.1, next.2.1, effs ++ [Effect.sleepFor backoff] ++ next.2.2)
        else
          (⟨url.raw, [], code, false, last_error', false, elapsed_ms⟩, cache, effs)
      else if Fetcher.is_soft_failure cfg text then
        (⟨url.raw, text, code, false, lit "soft_failure", false, elapsed_ms⟩, cache, effs)
      else
        (⟨url.raw, text, code, true, [], false, elapsed_ms⟩,
         PageCache.put cache 1000 cfg.cache_ttl url.raw text code now,
         effs ++ [Effect.cacheWrite])
    | .transportError msg =>
      if attempt < cfg.max_retries - 1 then
        let backoff := cfg.retry_backoff_base ^ (attempt + 1)
        let next := fetchLoop cfg respond url cache now remaining (attempt + 1) msg
        (next.1, next.2.1, effs ++ [Effect.sleepFor backoff] ++ next.2.2)
      else
        let next := fetchLoop cfg respond url cache now remaining (attempt + 1) msg
        (next.1, next.2.1, effs ++ next.2.2)
    | .unexpectedError msg =>
      (⟨url.raw, [], 0, false, lit "Unexpected: " ++ msg, false, 0⟩, cache, effs)

/-- `Fetcher.fetch_one`: SSRF filter, then cache-first lookup, then the retry
loop with write-through caching on success. -/
def Fetcher.fetch_one (cfg : ScrapeConfig) (dns : DNS) (respond : Nat → NetResponse)
    (url : FetchURL) (cache : Cache) (now : Nat) :
    FetchResult × Cache × List Effect :=
  if _is_private_url dns url.hostname then
    (blockedResult url.raw, cache, [])
  else
    match PageCache.get cache url.raw now with
    | (some entry, cache') =>
      (⟨url.raw, entry.content, entry.status_code, true, [], true, 0⟩,
       cache', [Effect.cacheRead])
    | (none, cache') =>
      let r := fetchLoop cfg respond url cache' now cfg.max_retries 0 []
      (r.1, r.2.1, Effect.cacheRead :: r.2.2)

/-- `is_disallowed` from `discovery.py`: robots.txt path-prefix match with
trailing-`*` wildcard support. -/
def is_disallowed (p : ParsedURL) (disallowed_paths : List Str) : Bool :=
  disallowed_paths.any fun rule =>
    if endsWithS rule ['*'] then startsWithS p.path (dropRightS rule 1)
    else startsWithS p.path rule

/-- `ExtractedContent` as consumed by the crawl loop (produced by the external
extractor). -/
structure Extracted where
  title : Str
  text : Str
  links : List ParsedURL
  word_count : Nat

/-- The crawl loop's environment: the robots.txt disallow rules accumulated in
the discovery phase, and oracles for the external collaborators — the fetch
outcome per URL, the extractor output per URL, and the extractor's
`content_similarity(a, b) > 0.9` test. -/
structure CrawlEnv where
  disallowed_paths : List Str
  fetch : ParsedURL → FetchResult
  extract : ParsedURL → Extracted
  similarGt90 : Str → Str → Bool

/-- A page record of the final report (`all_content` entry in `cli.py`);
the capped list fields irrelevant to the claims are omitted. -/
structure PageRecord where
  url : ParsedURL
  title : Str
  text : Str
  word_count : Nat
  from_cache : Bool
  fetch_time_ms : Nat
deriving DecidableEq

/-- The loop-relevant counters of the `stats` dictionary in `run_scraper`. -/
structure CrawlStats where
  urls_fetched : Nat
  urls_cached : Nat
  urls_failed : Nat
  soft_failures : Nat
  urls_skipped_disallowed : Nat
  urls_skipped_dedup : Nat
deriving DecidableEq

/-- The mutable state of the fetch-and-expand loop in `run_scraper`. -/
structure LoopState where
  queue : URLQueue
  pages : List PageRecord
  seen_texts : List Str
  stats : CrawlStats
deriving DecidableEq

/-- Rendering of a parsed URL back to a string (used for the `crawled:<url>`
provenance tag). -/
def ParsedURL.render (p : ParsedURL) : Str :=
  urlunparse p.scheme p.netloc p.path p.params p.query p.fragment

/-- Processing of one `FetchResult` inside the loop body of `run_scraper`:
stats counting, extraction, the similarity dedup check, page-record
accumulation, and depth-1 link expansion. -/
def processResult (env : CrawlEnv) (s : LoopState) (u : ParsedURL) : LoopState :=
  let r := env.fetch u
  let stats0 := { s.stats with urls_fetched := s.stats.urls_fetched + 1 }
  let stats1 :=
    if r.from_cache then { stats0 with urls_cached := stats0.urls_cached + 1 } else stats0
  if ¬ r.success then
    if r.error = lit "soft_failure" then
      { s with stats := { stats1 with soft_failures := stats1.soft_failures + 1 } }
    else
      { s with stats := { stats1 with urls_failed := stats1.urls_failed + 1 } }
  else
    let extracted := env.extract u
    let is_dup := s.seen_texts.any (fun seen => env.similarGt90 extracted.text seen)
    if is_dup then
      { s with stats := { stats1 with urls_skipped_dedup := stats1.urls_skipped_dedup + 1 } }
    else
      let page : PageRecord :=
        ⟨u, extracted.title, extracted.text.take 50000, extracted.word_count,
         r.from_cache, r.fetch_time_ms⟩
      let queue' := extracted.links.foldl
        (fun acc link =>
          (acc.add link (some SCORE_OFFICIAL_GUIDE) (lit "crawled:" ++ u.render) 1).2)
        s.queue
      { queue := queue', pages := s.pages ++ [page],
        seen_texts := s.seen_texts ++ [extracted.text.take 5000], stats := stats1 }

/-- The batch dequeued at the top of a loop iteration. -/
def stepBatch (cfg : ScrapeConfig) (s : LoopState) : List ScoredURL :=
  s.queue.get_batch cfg.concurrency

/-- The fetchable URLs of a batch: those not matching a robots.txt disallow
rule, in batch order. -/
def stepFetchList (env : CrawlEnv) (batch : List ScoredURL) : List ParsedURL :=
  (batch.filter (fun e => ¬ is_disallowed e.url env.disallowed_paths)).map
    (fun e => e.url)

/-- The loop state after a batch is dequeued, the disallowed entries counted,
and the whole batch marked fetched. -/
def stepMarked (env : CrawlEnv) (s : LoopState) (batch : List ScoredURL) : LoopState :=
  { s with queue := s.queue.mark_batch_fetched batch,
           stats := { s.stats with urls_skipped_disallowed :=
             s.stats.urls_skipped_disallowed +
               (batch.length - (stepFetchList env batch).length) } }

/-- One iteration of the fetch-and-expand `while` loop in `run_scraper`
(`cli.py` lines 107–182): `none` means the loop exits (guard false or empty
batch), `some s'` the state at the next loop test.  The dequeued batch is
marked fetched on every continuing path. -/
def crawlStep (cfg : ScrapeConfig) (env : CrawlEnv) (s : LoopState) : Option LoopState :=
  if 0 < s.queue.pending_count ∧ s.pages.length < cfg.max_urls then
    if stepBatch cfg s = [] then none
    else
      if stepFetchList env (stepBatch cfg s) = [] then
        some (stepMarked env s (stepBatch cfg s))
      else
        some ((stepFetchList env (stepBatch cfg s)).foldl (processResult env)
          (stepMarked env s (stepBatch cfg s)))
  else none

/-- Iterate `crawlStep` at most `n` times, stopping when the loop exits. -/
def crawlRun (cfg : ScrapeConfig) (env : CrawlEnv) : Nat → LoopState → LoopState
  | 0, s => s
  | n + 1, s =>
    match crawlStep cfg env s with
    | none => s
    | some s' => crawlRun cfg env n s'

/-- The report fields assembled at the end of `run_scraper` that the claims
refer to: the page list, the stats, and the top-level `urls_fetched` list
(built as `[page["url"] for page in all_content]`). -/
structure Report where
  pages : List PageRecord
  stats : CrawlStats
  urls_fetched : List ParsedURL
deriving DecidableEq

/-- Final report assembly from the loop state. -/
def mkReport (s : LoopState) : Report :=
  ⟨s.pages, s.stats, s.pages.map (fun page => page.url)⟩

/-- The effect trace of a retry sequence in which every attempt yields a 5xx
response: per attempt a rate-limit wait, a slot acquisition and a network
request, followed by a backoff sleep of `base ^ (attempt + 1)` seconds on
every non-final attempt. -/
def all5xxEffects (base : ℚ) (urlraw : Str) (maxR : Nat) : Nat → Nat → List Effect
  | 0, _ => []
  | fuel + 1, attempt =>
    [Effect.rateLimitWait, Effect.acquireSlot, Effect.networkGet urlraw] ++
      (if attempt < maxR - 1 then [Effect.sleepFor (base ^ (attempt + 1))] else []) ++
      all5xxEffects base urlraw maxR fuel (attempt + 1)

/-- The backoff sleeps appearing in an effect trace, in order. -/
def sleepsOf (effs : List Effect) : List ℚ :=
  effs.filterMap fun e =>
    match e with
    | Effect.sleepFor q => some q
    | _ => none

/-- The skip condition exactly as the specification words it: a flat
disjunction of the four criteria, with no precedence between the anchor-only
test and the others. -/
def spec_should_skip (p : ParsedURL) : Bool :=
  let path := toLowerS p.path
  let path_with_slash := if endsWithS path ['/'] then path else path ++ ['/']
  SKIP_PATH_PATTERNS.any (fun s => hasSub s path_with_slash) ||
    !(p.scheme = lit "http" ∨ p.scheme = lit "https" ∨ p.scheme = []) ||
    SKIP_EXTS.any (fun ext => endsWithS path ext) ||
    ((path = [] ∨ path = ['/']) ∧ p.fragment ≠ [] ∧ p.query = [])

/-- All-zero loop counters, the state of `stats` at entry to the
fetch-and-expand loop. -/
def CrawlStats.zero : CrawlStats := ⟨0, 0, 0, 0, 0, 0⟩

/-- The orchestrator state at entry to the fetch-and-expand loop: a queue from
seeding/discovery, no accumulated pages, no seen texts, zero loop counters. -/
def initialLoopState (q : URLQueue) : LoopState := ⟨q, [], [], CrawlStats.zero⟩

/-- A small configuration for concrete evaluations (mode-independent fields
only; `min_content_length` lowered so short bodies stay realistic). -/
def cfgW : ScrapeConfig := ⟨12, 5, 3, 2, 1, 21600, 5⟩

/-- A resolver for which every hostname resolves to one public address. -/
def dnsPub : DNS := ⟨fun _ => none, fun _ => [⟨false, false, false, false⟩]⟩

/-- A concrete fetch target. -/
def urlW : FetchURL := ⟨lit "http://h/x", lit "h"⟩

/-- A transport that always answers HTTP 503 with an empty body. -/
def resp503 : Nat → NetResponse := fun _ => NetResponse.status 503 [] 7

/-- A transport that always answers HTTP 404 with an empty body. -/
def resp404 : Nat → NetResponse := fun _ => NetResponse.status 404 [] 7

/-- A transport that always answers HTTP 200 with a fixed short body. -/
def resp200short : Nat → NetResponse := fun _ => NetResponse.status 200 (lit "ab") 7

/-- A transport that always answers HTTP 200 with a fixed ten-character
body. -/
def resp200ok : Nat → NetResponse := fun _ => NetResponse.status 200 (lit "helloworld") 7


/-- The loop invariant behind the report-shape claims: the seen-text list
mirrors the accepted pages, every accepted page was fetched successfully and
was not robots-disallowed, accepted pages are pairwise non-similar (each later
page's extracted text is dissimilar from each earlier page's stored 5000-char
comparison text), and the fetched counter counts every processed result
(accepted, soft-failed, hard-failed, or deduplicated). -/
def CrawlInv (env : CrawlEnv) (s : LoopState) : Prop :=
  s.seen_texts = s.pages.map (fun pg => (env.extract pg.url).text.take 5000) ∧
  (∀ pg ∈ s.pages, (env.fetch pg.url).success = true ∧
    is_disallowed pg.url env.disallowed_paths = false) ∧
  List.Pairwise (fun a b => env.similarGt90 (env.extract b.url).text
    ((env.extract a.url).text.take 5000) = false) s.pages ∧
  s.stats.urls_fetched = s.pages.length + s.stats.soft_failures +
    s.stats.urls_failed + s.stats.urls_skipped_dedup

/-- A concrete crawl environment where every fetch fails with HTTP 404. -/
def envW : CrawlEnv :=
  ⟨[], fun _ => ⟨[], [], 404, false, lit "HTTP 404", false, 0⟩,
   fun _ => ⟨[], [], [], 0⟩, fun _ _ => false⟩

/-- A concrete single-entry queue. -/
def queueW : URLQueue :=
  ⟨25, [(lit "https://a.com/docs",
    ⟨⟨lit "https", lit "a.com", lit "/docs", [], [], []⟩, 2, [], 0⟩)], []⟩

theorem isPrefixOf_take (n : Str) :
    ∀ (l : Str) (k : Nat), n.isPrefixOf (l.take k) = true → n.isPrefixOf l = true := by
  induction n with
  | nil => intro l k _; cases l <;> rfl
  | cons a n ih =>
    intro l k h
    cases l with
    | nil => simp [List.isPrefixOf] at h
    | cons b t =>
      cases k with
      | zero => simp [List.isPrefixOf] at h
      | succ k =>
        simp only [List.take, List.isPrefixOf, Bool.and_eq_true] at h ⊢
        exact ⟨h.1, ih t k h.2⟩

theorem hasSub_take (n : Str) :
    ∀ (l : Str) (k : Nat), hasSub n (l.take k) = true → hasSub n l = true := by
  intro l
  induction l with
  | nil => intro k h; simpa using h
  | cons c t ih =>
    intro k h
    cases k with
    | zero =>
      cases n with
      | nil => simp [hasSub, List.isPrefixOf]
      | cons a m => simp [hasSub, List.isEmpty] at h
    | succ k =>
      simp only [List.take, hasSub, Bool.or_eq_true] at h ⊢
      rcases h with h | h
      · exact Or.inl (isPrefixOf_take _ _ (k + 1) (by simpa [List.take] using h))
      · exact Or.inr (ih k h)

/-- C2: a URL whose hostname is empty, is "localhost" or
"metadata.google.internal", is a literal IP address classified private,
loopback, link-local or reserved, or (failing literal parsing) resolves to any
such address, is answered by `fetch_one` without any network request, cache
read or cache write, with success=false, error="blocked_private_url" and
status_code=0. -/
theorem C2_ssrf_blocked (cfg : ScrapeConfig) (dns : DNS) (respond : Nat → NetResponse)
    (url : FetchURL) (cache : Cache) (now : Nat)
    (h : url.hostname = [] ∨
      url.hostname = lit "localhost" ∨ url.hostname = lit "metadata.google.internal" ∨
      (∃ a, dns.parseIP url.hostname = some a ∧ a.blockedClass = true) ∨
      (dns.parseIP url.hostname = none ∧
        ∃ a ∈ dns.getaddrinfo url.hostname, a.blockedClass = true)) :
    Fetcher.fetch_one cfg dns respond url cache now =
      (⟨url.raw, [], 0, false, lit "blocked_private_url", false, 0⟩, cache, []) := by
  have hp : _is_private_url dns url.hostname = true := by
    unfold _is_private_url
    rcases h with h | h | h | ⟨a, ha, hb⟩ | ⟨hn, a, hmem, hb⟩
    · simp [h]
    · rw [h, if_neg (by decide), if_pos (by exact Or.inl rfl)]
    · rw [h, if_neg (by decide), if_pos (by exact Or.inr rfl)]
    · by_cases h1 : url.hostname = []
      · simp [h1]
      · by_cases h2 : url.hostname = lit "localhost" ∨ url.hostname = lit "metadata.google.internal"
        · simp [h1, h2]
        · rw [if_neg h1, if_neg h2, ha]; exact hb
    · by_cases h1 : url.hostname = []
      · simp [h1]
      · by_cases h2 : url.hostname = lit "localhost" ∨ url.hostname = lit "metadata.google.internal"
        · simp [h1, h2]
        · rw [if_neg h1, if_neg h2, hn]
          exact List.any_eq_true.mpr ⟨a, hmem, hb⟩
  simp [Fetcher.fetch_one, hp, blockedResult]

theorem C2_ssrf_blocked_witness :
    Fetcher.fetch_one cfgW ⟨fun _ => none, fun _ => []⟩ resp200ok
        ⟨lit "http://localhost/x", lit "localhost"⟩ [] 0 =
      (⟨lit "http://localhost/x", [], 0, false, lit "blocked_private_url", false, 0⟩, [], []) :=
  C2_ssrf_blocked cfgW ⟨fun _ => none, fun _ => []⟩ resp200ok
    ⟨lit "http://localhost/x", lit "localhost"⟩ [] 0 (Or.inr (Or.inl rfl))

/-- C5: for a body fetched on a 2xx/3xx response, content below
`min_content_length` characters is always a soft failure; otherwise the body
is a soft failure exactly when one of the fixed login-wall/error phrases
occurs within the first 2000 characters of the lowercased content; and a soft
failure is returned as success=false, error="soft_failure", still carrying
the fetched content and status code, without writing to the cache. -/
theorem C5_soft_failure (cfg : ScrapeConfig) (dns : DNS) (respond : Nat → NetResponse)
    (url : FetchURL) (cache : Cache) (now code : Nat) (text : Str) (ms : Nat)
    (hpriv : _is_private_url dns url.hostname = false)
    (hmiss : PageCache.get cache url.raw now = (none, cache))
    (hresp : respond 0 = NetResponse.status code text ms)
    (hcode : 200 ≤ code ∧ code < 400)
    (hretries : 1 ≤ cfg.max_retries) :
    (text.length < cfg.min_content_length → Fetcher.is_soft_failure cfg text = true) ∧
    (cfg.min_content_length ≤ text.length →
      (Fetcher.is_soft_failure cfg text = true ↔
        ∃ signal ∈ SOFT_FAILURE_SIGNALS,
          hasSub signal ((toLowerS text).take 2000) = true)) ∧
    (Fetcher.is_soft_failure cfg text = true →
      Fetcher.fetch_one cfg dns respond url cache now =
        (⟨url.raw, text, code, false, lit "soft_failure", false, ms⟩, cache,
         [Effect.cacheRead, Effect.rateLimitWait, Effect.acquireSlot,
          Effect.networkGet url.raw])) := by
  refine ⟨fun hshort => by simp [Fetcher.is_soft_failure, hshort], fun hlong => ?_, fun hsoft => ?_⟩
  · have hnot : ¬ text.length < cfg.min_content_length := by omega
    unfold Fetcher.is_soft_failure
    rw [if_neg hnot]
    by_cases houter : SOFT_FAILURE_SIGNALS.any (fun signal => hasSub signal (toLowerS text)) = true
    · rw [if_pos houter]
      simp [List.any_eq_true]
    · rw [if_neg houter]
      constructor
      · intro h; simp at h
      · rintro ⟨signal, hmem, hsub⟩
        have hall : (SOFT_FAILURE_SIGNALS.any fun signal => hasSub signal (toLowerS text)) = true :=
          List.any_eq_true.mpr ⟨signal, hmem, hasSub_take signal (toLowerS text) 2000 hsub⟩
        exact absurd hall houter
  · obtain ⟨m, hm⟩ : ∃ m, cfg.max_retries = m + 1 := ⟨cfg.max_retries - 1, by omega⟩
    have h4 : ¬ (400 ≤ code ∧ code < 500) := by omega
    have h5 : ¬ 500 ≤ code := by omega
    simp [Fetcher.fetch_one, hpriv, hmiss, hm, fetchLoop, hresp, h4, h5, hsoft]

theorem C5_soft_failure_witness :
    Fetcher.is_soft_failure cfgW (lit "ab") = true ∧
    Fetcher.fetch_one cfgW dnsPub resp200short urlW [] 0 =
      (⟨lit "http://h/x", lit "ab", 200, false, lit "soft_failure", false, 7⟩, [],
       [Effect.cacheRead, Effect.rateLimitWait, Effect.acquireSlot,
        Effect.networkGet (lit "http://h/x")]) :=
  ⟨by decide,
   (C5_soft_failure cfgW dnsPub resp200short urlW [] 0 200 (lit "ab") 7 (by decide) rfl rfl
     (by decide) (by decide)).2.2 (by decide)⟩


theorem all5xxEffects_succ (base : ℚ) (urlraw : Str) (maxR f attempt : Nat) :
    all5xxEffects base urlraw maxR (f + 1) attempt =
      [Effect.rateLimitWait, Effect.acquireSlot, Effect.networkGet urlraw] ++
        (if attempt < maxR - 1 then [Effect.sleepFor (base ^ (attempt + 1))] else []) ++
        all5xxEffects base urlraw maxR f (attempt + 1) := rfl

theorem fetchLoop_status_4xx (cfg : ScrapeConfig) (respond : Nat → NetResponse)
    (url : FetchURL) (cache : Cache) (now f attempt : Nat) (lastErr : Str)
    (code : Nat) (text : Str) (ms : Nat)
    (hresp : respond attempt = NetResponse.status code text ms)
    (h4 : 400 ≤ code ∧ code < 500) :
    fetchLoop cfg respond url cache now (f + 1) attempt lastErr =
      (⟨url.raw, [], code, false, lit "HTTP " ++ natToStr code, false, ms⟩, cache,
       [Effect.rateLimitWait, Effect.acquireSlot, Effect.networkGet url.raw]) := by
  simp only [fetchLoop, hresp]
  rw [if_pos h4]

theorem fetchLoop_status_5xx_cont (cfg : ScrapeConfig) (respond : Nat → NetResponse)
    (url : FetchURL) (cache : Cache) (now f attempt : Nat) (lastErr : Str)
    (code : Nat) (text : Str) (ms : Nat)
    (hresp : respond attempt = NetResponse.status code text ms)
    (h5 : 500 ≤ code) (hcont : attempt < cfg.max_retries - 1) :
    fetchLoop cfg respond url cache now (f + 1) attempt lastErr =
      ((fetchLoop cfg respond url cache now f (attempt + 1) (lit "HTTP " ++ natToStr code)).1,
       (fetchLoop cfg respond url cache now f (attempt + 1) (lit "HTTP " ++ natToStr code)).2.1,
       [Effect.rateLimitWait, Effect.acquireSlot, Effect.networkGet url.raw] ++
         [Effect.sleepFor (cfg.retry_backoff_base ^ (attempt + 1))] ++
         (fetchLoop cfg respond url cache now f (attempt + 1)
           (lit "HTTP " ++ natToStr code)).2.2) := by
  have h4 : ¬ (400 ≤ code ∧ code < 500) := by omega
  simp only [fetchLoop, hresp]
  rw [if_neg h4, if_pos h5, if_pos hcont]

theorem fetchLoop_status_5xx_final (cfg : ScrapeConfig) (respond : Nat → NetResponse)
    (url : FetchURL) (cache : Cache) (now f attempt : Nat) (lastErr : Str)
    (code : Nat) (text : Str) (ms : Nat)
    (hresp : respond attempt = NetResponse.status code text ms)
    (h5 : 500 ≤ code) (hfin : ¬ attempt < cfg.max_retries - 1) :
    fetchLoop cfg respond url cache now (f + 1) attempt lastErr =
      (⟨url.raw, [], code, false, lit "HTTP " ++ natToStr code, false, ms⟩, cache,
       [Effect.rateLimitWait, Effect.acquireSlot, Effect.networkGet url.raw]) := by
  have h4 : ¬ (400 ≤ code ∧ code < 500) := by omega
  simp only [fetchLoop, hresp]
  rw [if_neg h4, if_pos h5, if_neg hfin]

theorem fetchLoop_status_soft (cfg : ScrapeConfig) (respond : Nat → NetResponse)
    (url : FetchURL) (cache : Cache) (now f attempt : Nat) (lastErr : Str)
    (code : Nat) (text : Str) (ms : Nat)
    (hresp : respond attempt = NetResponse.status code text ms)
    (hlow : code < 400) (hsoft : Fetcher.is_soft_failure cfg text = true) :
    fetchLoop cfg respond url cache now (f + 1) attempt lastErr =
      (⟨url.raw, text, code, false, lit "soft_failure", false, ms⟩, cache,
       [Effect.rateLimitWait, Effect.acquireSlot, Effect.networkGet url.raw]) := by
  have h4 : ¬ (400 ≤ code ∧ code < 500) := by omega
  have h5 : ¬ 500 ≤ code := by omega
  simp only [fetchLoop, hresp]
  rw [if_neg h4, if_neg h5, if_pos hsoft]

theorem fetchLoop_status_ok (cfg : ScrapeConfig) (respond : Nat → NetResponse)
    (url : FetchURL) (cache : Cache) (now f attempt : Nat) (lastErr : Str)
    (code : Nat) (text : Str) (ms : Nat)
    (hresp : respond attempt = NetResponse.status code text ms)
    (hlow : code < 400) (hsoft : Fetcher.is_soft_failure cfg text = false) :
    fetchLoop cfg respond url cache now (f + 1) attempt lastErr =
      (⟨url.raw, text, code, true, [], false, ms⟩,
       PageCache.put cache 1000 cfg.cache_ttl url.raw text code now,
       [Effect.rateLimitWait, Effect.acquireSlot, Effect.networkGet url.raw,
        Effect.cacheWrite]) := by
  have h4 : ¬ (400 ≤ code ∧ code < 500) := by omega
  have h5 : ¬ 500 ≤ code := by omega
  have hsoft' : ¬ Fetcher.is_soft_failure cfg text = true := by simp [hsoft]
  simp only [fetchLoop, hresp]
  rw [if_neg h4, if_neg h5, if_neg hsoft']
  simp

theorem fetchLoop_transport_cont (cfg : ScrapeConfig) (respond : Nat → NetResponse)
    (url : FetchURL) (cache : Cache) (now f attempt : Nat) (lastErr msg : Str)
    (hresp : respond attempt = NetResponse.transportError msg)
    (hcont : attempt < cfg.max_retries - 1) :
    fetchLoop cfg respond url cache now (f + 1) attempt lastErr =
      ((fetchLoop cfg respond url cache now f (attempt + 1) msg).1,
       (fetchLoop cfg respond url cache now f (attempt + 1) msg).2.1,
       [Effect.rateLimitWait, Effect.acquireSlot, Effect.networkGet url.raw] ++
         [Effect.sleepFor (cfg.retry_backoff_base ^ (attempt + 1))] ++
         (fetchLoop cfg respond url cache now f (attempt + 1) msg).2.2) := by
  simp only [fetchLoop, hresp]
  rw [if_pos hcont]

theorem fetchLoop_transport_final (cfg : ScrapeConfig) (respond : Nat → NetResponse)
    (url : FetchURL) (cache : Cache) (now f attempt : Nat) (lastErr msg : Str)
    (hresp : respond attempt = NetResponse.transportError msg)
    (hfin : ¬ attempt < cfg.max_retries - 1) :
    fetchLoop cfg respond url cache now (f + 1) attempt lastErr =
      ((fetchLoop cfg respond url cache now f (attempt + 1) msg).1,
       (fetchLoop cfg respond url cache now f (attempt + 1) msg).2.1,
       [Effect.rateLimitWait, Effect.acquireSlot, Effect.networkGet url.raw] ++
         (fetchLoop cfg respond url cache now f (attempt + 1) msg).2.2) := by
  simp only [fetchLoop, hresp]
  rw [if_neg hfin]

theorem fetchLoop_unexpected (cfg : ScrapeConfig) (respond : Nat → NetResponse)
    (url : FetchURL) (cache : Cache) (now f attempt : Nat) (lastErr msg : Str)
    (hresp : respond attempt = NetResponse.unexpectedError msg) :
    fetchLoop cfg respond url cache now (f + 1) attempt lastErr =
      (⟨url.raw, [], 0, false, lit "Unexpected: " ++ msg, false, 0⟩, cache,
       [Effect.rateLimitWait, Effect.acquireSlot, Effect.networkGet url.raw]) := by
  simp only [fetchLoop, hresp]

theorem fetchLoop_all5xx (cfg : ScrapeConfig) (respond : Nat → NetResponse)
    (url : FetchURL) (cache : Cache) (now : Nat) (codeOf : Nat → Nat)
    (textOf : Nat → Str) (msOf : Nat → Nat)
    (hstat : ∀ i, i < cfg.max_retries →
      respond i = NetResponse.status (codeOf i) (textOf i) (msOf i) ∧ 500 ≤ codeOf i) :
    ∀ fuel attempt lastErr, attempt + fuel = cfg.max_retries → 1 ≤ fuel →
      fetchLoop cfg respond url cache now fuel attempt lastErr =
        (⟨url.raw, [], codeOf (cfg.max_retries - 1), false,
          lit "HTTP " ++ natToStr (codeOf (cfg.max_retries - 1)), false,
          msOf (cfg.max_retries - 1)⟩, cache,
         all5xxEffects cfg.retry_backoff_base url.raw cfg.max_retries fuel attempt) := by
  intro fuel
  induction fuel with
  | zero => intro attempt lastErr _ h1; omega
  | succ f ih =>
    intro attempt lastErr htot _
    have hlt : attempt < cfg.max_retries := by omega
    obtain ⟨hresp, hcode⟩ := hstat attempt hlt
    cases f with
    | zero =>
      have hfin : ¬ attempt < cfg.max_retries - 1 := by omega
      have hattempt : attempt = cfg.max_retries - 1 := by omega
      rw [fetchLoop_status_5xx_final cfg respond url cache now 0 attempt lastErr
        (codeOf attempt) (textOf attempt) (msOf attempt) hresp hcode hfin,
        all5xxEffects_succ, if_neg hfin, hattempt]
      simp [all5xxEffects]
    | succ g =>
      have hcont : attempt < cfg.max_retries - 1 := by omega
      have hrec := ih (attempt + 1) (lit "HTTP " ++ natToStr (codeOf attempt))
        (by omega) (by omega)
      rw [fetchLoop_status_5xx_cont cfg respond url cache now (g + 1) attempt lastErr
        (codeOf attempt) (textOf attempt) (msOf attempt) hresp hcode hcont,
        all5xxEffects_succ, if_pos hcont, hrec]

theorem sleepsOf_append (a b : List Effect) :
    sleepsOf (a ++ b) = sleepsOf a ++ sleepsOf b := by
  simp [sleepsOf, List.filterMap_append]

theorem sleepsOf_all5xx (base : ℚ) (urlraw : Str) (maxR : Nat) :
    ∀ fuel attempt, attempt + fuel = maxR →
      sleepsOf (all5xxEffects base urlraw maxR fuel attempt) =
        (List.range (fuel - 1)).map (fun j => base ^ (attempt + 1 + j)) := by
  intro fuel
  induction fuel with
  | zero => intro attempt _; simp [all5xxEffects, sleepsOf]
  | succ f ih =>
    intro attempt htot
    cases f with
    | zero =>
      have hfin : ¬ attempt < maxR - 1 := by omega
      rw [all5xxEffects_succ, if_neg hfin]
      simp [all5xxEffects, sleepsOf]
    | succ g =>
      have hcont : attempt < maxR - 1 := by omega
      have hrec := ih (attempt + 1) (by omega)
      rw [all5xxEffects_succ, if_pos hcont, sleepsOf_append, sleepsOf_append, hrec]
      have hblock : sleepsOf [Effect.rateLimitWait, Effect.acquireSlot,
          Effect.networkGet urlraw] = [] := by
        simp [sleepsOf, List.filterMap]
      have hsleep : sleepsOf [Effect.sleepFor (base ^ (attempt + 1))] =
          [base ^ (attempt + 1)] := by
        simp [sleepsOf, List.filterMap]
      rw [hblock, hsleep]
      have hrange : List.range (g + 1 + 1 - 1) = 0 :: (List.range g).map Nat.succ :=
        List.range_succ_eq_map g
      rw [hrange]
      simp only [List.map_cons, List.map_map, List.nil_append, List.cons_append,
        Nat.add_zero, Nat.succ_sub_one]
      congr 1
      apply List.map_congr_left
      intro j _
      have hj : attempt + 1 + 1 + j = attempt + 1 + Nat.succ j := by omega
      simp [Function.comp, hj]

theorem count_networkGet_all5xx (base : ℚ) (urlraw : Str) (maxR : Nat) :
    ∀ fuel attempt,
      (all5xxEffects base urlraw maxR fuel attempt).count (Effect.networkGet urlraw) = fuel := by
  intro fuel
  induction fuel with
  | zero => intro attempt; simp [all5xxEffects]
  | succ f ih =>
    intro attempt
    rw [all5xxEffects_succ]
    by_cases hc : attempt < maxR - 1 <;>
      simp [hc, List.count_append, List.count_cons, ih (attempt + 1)]

/-- C4: a 4xx response on the first attempt ends `fetch_one` after exactly one
network request, with no retry sleep and error "HTTP <code>"; if every attempt
yields a 5xx response, `fetch_one` performs exactly `max_retries` network
requests, sleeping `retry_backoff_base ** attempt_number` seconds
(attempt_number starting at 1) between non-final attempts, and returns
success=false with error "HTTP <code>" of the final response. -/
theorem C4_retry_policy (cfg : ScrapeConfig) (dns : DNS) (respond : Nat → NetResponse)
    (url : FetchURL) (cache : Cache) (now : Nat)
    (hpriv : _is_private_url dns url.hostname = false)
    (hmiss : PageCache.get cache url.raw now = (none, cache))
    (hretries : 1 ≤ cfg.max_retries) :
    (∀ code text ms, respond 0 = NetResponse.status code text ms →
      400 ≤ code → code < 500 →
      Fetcher.fetch_one cfg dns respond url cache now =
        (⟨url.raw, [], code, false, lit "HTTP " ++ natToStr code, false, ms⟩, cache,
         [Effect.cacheRead, Effect.rateLimitWait, Effect.acquireSlot,
          Effect.networkGet url.raw])) ∧
    (∀ codeOf : Nat → Nat, ∀ textOf : Nat → Str, ∀ msOf : Nat → Nat,
      (∀ i, i < cfg.max_retries →
        respond i = NetResponse.status (codeOf i) (textOf i) (msOf i) ∧ 500 ≤ codeOf i) →
      Fetcher.fetch_one cfg dns respond url cache now =
        (⟨url.raw, [], codeOf (cfg.max_retries - 1), false,
          lit "HTTP " ++ natToStr (codeOf (cfg.max_retries - 1)), false,
          msOf (cfg.max_retries - 1)⟩, cache,
         Effect.cacheRead ::
           all5xxEffects cfg.retry_backoff_base url.raw cfg.max_retries cfg.max_retries 0) ∧
      sleepsOf (Effect.cacheRead :: all5xxEffects cfg.retry_backoff_base url.raw
          cfg.max_retries cfg.max_retries 0) =
        (List.range (cfg.max_retries - 1)).map (fun i => cfg.retry_backoff_base ^ (i + 1)) ∧
      (Effect.cacheRead :: all5xxEffects cfg.retry_backoff_base url.raw
          cfg.max_retries cfg.max_retries 0).count (Effect.networkGet url.raw) =
        cfg.max_retries) := by
  obtain ⟨m, hm⟩ : ∃ m, cfg.max_retries = m + 1 := ⟨cfg.max_retries - 1, by omega⟩
  constructor
  · intro code text ms hresp h400 h500
    have hl := fetchLoop_status_4xx cfg respond url cache now m 0 [] code text ms hresp
      ⟨h400, h500⟩
    simp [Fetcher.fetch_one, hpriv, hmiss, hm, hl]
  · intro codeOf textOf msOf hstat
    have hl := fetchLoop_all5xx cfg respond url cache now codeOf textOf msOf hstat
      cfg.max_retries 0 [] (by omega) hretries
    refine ⟨?_, ?_, ?_⟩
    · simp only [Fetcher.fetch_one, hpriv, Bool.false_eq_true, if_false, hmiss, hl]
    · have hs := sleepsOf_all5xx cfg.retry_backoff_base url.raw cfg.max_retries
        cfg.max_retries 0 (by omega)
      have hcons : sleepsOf (Effect.cacheRead :: all5xxEffects cfg.retry_backoff_base
          url.raw cfg.max_retries cfg.max_retries 0) =
          sleepsOf (all5xxEffects cfg.retry_backoff_base url.raw cfg.max_retries
            cfg.max_retries 0) := by
        simp [sleepsOf]
      rw [hcons, hs]
      apply List.map_congr_left
      intro j _
      have hj : 0 + 1 + j = j + 1 := by omega
      rw [hj]
    · have hc := count_networkGet_all5xx cfg.retry_backoff_base url.raw cfg.max_retries
        cfg.max_retries 0
      simp [List.count_cons, hc]

theorem C4_retry_policy_witness :
    (Fetcher.fetch_one cfgW dnsPub resp404 urlW [] 0 =
      (⟨lit "http://h/x", [], 404, false, lit "HTTP " ++ natToStr 404, false, 7⟩, [],
       [Effect.cacheRead, Effect.rateLimitWait, Effect.acquireSlot,
        Effect.networkGet (lit "http://h/x")])) ∧
    (Fetcher.fetch_one cfgW dnsPub resp503 urlW [] 0 =
      (⟨lit "http://h/x", [], 503, false, lit "HTTP " ++ natToStr 503, false, 7⟩, [],
       Effect.cacheRead :: all5xxEffects 2 (lit "http://h/x") 3 3 0) ∧
     sleepsOf (Effect.cacheRead :: all5xxEffects 2 (lit "http://h/x") 3 3 0) =
       (List.range 2).map (fun i => (2 : ℚ) ^ (i + 1)) ∧
     (Effect.cacheRead :: all5xxEffects 2 (lit "http://h/x") 3 3 0).count
       (Effect.networkGet (lit "http://h/x")) = 3) :=
  ⟨(C4_retry_policy cfgW dnsPub resp404 urlW [] 0 (by decide) rfl (by decide)).1 404 [] 7 rfl
     (by decide) (by decide),
   (C4_retry_policy cfgW dnsPub resp503 urlW [] 0 (by decide) rfl (by decide)).2
     (fun _ => 503) (fun _ => []) (fun _ => 7) (fun i _ => ⟨rfl, (by decide : (500 : Nat) ≤ 503)⟩)⟩

theorem fetchLoop_success_inv (cfg : ScrapeConfig) (respond : Nat → NetResponse)
    (url : FetchURL) (cache : Cache) (now : Nat) :
    ∀ fuel attempt lastErr,
      (fetchLoop cfg respond url cache now fuel attempt lastErr).1.success = true →
      (fetchLoop cfg respond url cache now fuel attempt lastErr).2.1 =
        PageCache.put cache 1000 cfg.cache_ttl url.raw
          (fetchLoop cfg respond url cache now fuel attempt lastErr).1.content
          (fetchLoop cfg respond url cache now fuel attempt lastErr).1.status_code now ∧
      (fetchLoop cfg respond url cache now fuel attempt lastErr).1.url = url.raw ∧
      (fetchLoop cfg respond url cache now fuel attempt lastErr).1.from_cache = false := by
  intro fuel
  induction fuel with
  | zero => intro attempt lastErr h; simp [fetchLoop] at h
  | succ f ih =>
    intro attempt lastErr h
    cases hr : respond attempt with
    | status code text ms =>
      by_cases h4 : 400 ≤ code ∧ code < 500
      · rw [fetchLoop_status_4xx cfg respond url cache now f attempt lastErr code text ms
          hr h4] at h
        simp at h
      · by_cases h5 : 500 ≤ code
        · by_cases hcont : attempt < cfg.max_retries - 1
          · rw [fetchLoop_status_5xx_cont cfg respond url cache now f attempt lastErr
              code text ms hr h5 hcont] at h ⊢
            exact ih (attempt + 1) (lit "HTTP " ++ natToStr code) h
          · rw [fetchLoop_status_5xx_final cfg respond url cache now f attempt lastErr
              code text ms hr h5 hcont] at h
            simp at h
        · have hlow : code < 400 := by omega
          by_cases hsoft : Fetcher.is_soft_failure cfg text = true
          · rw [fetchLoop_status_soft cfg respond url cache now f attempt lastErr
              code text ms hr hlow hsoft] at h
            simp at h
          · rw [fetchLoop_status_ok cfg respond url cache now f attempt lastErr
              code text ms hr hlow (by simpa using hsoft)]
            exact ⟨rfl, rfl, rfl⟩
    | transportError msg =>
      by_cases hcont : attempt < cfg.max_retries - 1
      · rw [fetchLoop_transport_cont cfg respond url cache now f attempt lastErr msg
          hr hcont] at h ⊢
        exact ih (attempt + 1) msg h
      · rw [fetchLoop_transport_final cfg respond url cache now f attempt lastErr msg
          hr hcont] at h ⊢
        exact ih (attempt + 1) msg h
    | unexpectedError msg =>
      rw [fetchLoop_unexpected cfg respond url cache now f attempt lastErr msg hr] at h
      simp at h

theorem find_put (c : Cache) (maxE ttl : Nat) (url content : Str) (status now : Nat) :
    (PageCache.put c maxE ttl url content status now).find?
        (fun kv => kv.1 = PageCache.key url) =
      some (PageCache.key url, ⟨url, content, status, now, now + ttl⟩) := by
  unfold PageCache.put
  rw [List.find?_append]
  have hnone : ∀ (l : Cache),
      (l.filter (fun kv => kv.1 ≠ PageCache.key url)).find?
        (fun kv => kv.1 = PageCache.key url) = none := by
    intro l
    rw [List.find?_eq_none]
    intro kv hkv
    have := List.of_mem_filter hkv
    simpa using this
  rw [hnone]
  simp

/-- C9: a successful network fetch writes its content and status code to the
cache keyed by the exact URL string, and an immediately subsequent `fetch_one`
of the same URL while the entry is unexpired answers from the cache with the
identical content and status code, success=true, from_cache=true,
fetch_time_ms=0, touching neither the network nor a concurrency slot nor the
rate limiter (its only effect is the cache read). -/
theorem C9_cache_roundtrip (cfg : ScrapeConfig) (dns : DNS) (respond : Nat → NetResponse)
    (url : FetchURL) (cache : Cache) (now : Nat) (r : FetchResult) (cache1 : Cache)
    (effs : List Effect)
    (hfetch : Fetcher.fetch_one cfg dns respond url cache now = (r, cache1, effs))
    (hsucc : r.success = true) (hnc : r.from_cache = false) :
    cache1.find? (fun kv => kv.1 = PageCache.key url.raw) =
      some (PageCache.key url.raw,
        ⟨url.raw, r.content, r.status_code, now, now + cfg.cache_ttl⟩) ∧
    (∀ respond2 : Nat → NetResponse, ∀ now2 : Nat, ¬ now2 > now + cfg.cache_ttl →
      Fetcher.fetch_one cfg dns respond2 url cache1 now2 =
        (⟨url.raw, r.content, r.status_code, true, [], true, 0⟩, cache1,
         [Effect.cacheRead])) := by
  by_cases hpriv : _is_private_url dns url.hostname = true
  · rw [show Fetcher.fetch_one cfg dns respond url cache now =
        (blockedResult url.raw, cache, []) by simp [Fetcher.fetch_one, hpriv]] at hfetch
    injection hfetch with h1 hrest
    rw [← h1] at hsucc
    simp [blockedResult] at hsucc
  · have hpriv' : _is_private_url dns url.hostname = false := by
      simpa using hpriv
    rcases hget : PageCache.get cache url.raw now with ⟨o, c'⟩
    cases o with
    | some entry =>
      have hfe : Fetcher.fetch_one cfg dns respond url cache now =
          (⟨url.raw, entry.content, entry.status_code, true, [], true, 0⟩, c',
           [Effect.cacheRead]) := by
        simp [Fetcher.fetch_one, hpriv', hget]
      rw [hfe] at hfetch
      injection hfetch with h1 hrest
      rw [← h1] at hnc
      simp at hnc
    | none =>
      have hfe : Fetcher.fetch_one cfg dns respond url cache now =
          ((fetchLoop cfg respond url c' now cfg.max_retries 0 []).1,
           (fetchLoop cfg respond url c' now cfg.max_retries 0 []).2.1,
           Effect.cacheRead :: (fetchLoop cfg respond url c' now cfg.max_retries 0 []).2.2) := by
        simp [Fetcher.fetch_one, hpriv', hget]
      rw [hfe] at hfetch
      injection hfetch with h1 hrest
      injection hrest with h2 h3
      subst h1
      subst h2
      subst h3
      obtain ⟨hcw, hurl, hfc⟩ := fetchLoop_success_inv cfg respond url c' now
        cfg.max_retries 0 [] hsucc
      constructor
      · rw [hcw]
        exact find_put c' 1000 cfg.cache_ttl url.raw _ _ now
      · intro respond2 now2 hexp
        have hget2 : PageCache.get
            (fetchLoop cfg respond url c' now cfg.max_retries 0 []).2.1 url.raw now2 =
            (some ⟨url.raw,
              (fetchLoop cfg respond url c' now cfg.max_retries 0 []).1.content,
              (fetchLoop cfg respond url c' now cfg.max_retries 0 []).1.status_code,
              now, now + cfg.cache_ttl⟩,
             (fetchLoop cfg respond url c' now cfg.max_retries 0 []).2.1) := by
          rw [hcw]
          unfold PageCache.get
          rw [find_put]
          simp [hexp]
        simp [Fetcher.fetch_one, hpriv', hget2]

theorem C9_cache_roundtrip_witness :
    Fetcher.fetch_one cfgW dnsPub resp404 urlW
        (PageCache.put [] 1000 21600 (lit "http://h/x") (lit "helloworld") 200 0) 21600 =
      (⟨lit "http://h/x", lit "helloworld", 200, true, [], true, 0⟩,
       PageCache.put [] 1000 21600 (lit "http://h/x") (lit "helloworld") 200 0,
       [Effect.cacheRead]) :=
  (C9_cache_roundtrip cfgW dnsPub resp200ok urlW [] 0
    ⟨lit "http://h/x", lit "helloworld", 200, true, [], false, 7⟩
    (PageCache.put [] 1000 21600 (lit "http://h/x") (lit "helloworld") 200 0)
    [Effect.cacheRead, Effect.rateLimitWait, Effect.acquireSlot,
     Effect.networkGet (lit "http://h/x"), Effect.cacheWrite]
    (by decide) rfl rfl).2 resp404 21600 (by decide)

theorem URLQueue.add_skip (q : URLQueue) (u : ParsedURL) (s : Option Int) (src : Str)
    (d : Nat) (h : should_skip_url u = true) : q.add u s src d = (false, q) := by
  simp [URLQueue.add, h]

theorem URLQueue.add_already_fetched (q : URLQueue) (u : ParsedURL) (s : Option Int)
    (src : Str) (d : Nat) (h1 : should_skip_url u = false)
    (h2 : normalize_url u ∈ q.fetched) : q.add u s src d = (false, q) := by
  simp [URLQueue.add, h1, h2]

theorem URLQueue.add_new (q : URLQueue) (u : ParsedURL) (s : Option Int) (src : Str)
    (d : Nat) (h1 : should_skip_url u = false) (h2 : ¬ normalize_url u ∈ q.fetched)
    (hf : q.urls.find? (fun kv => kv.1 = normalize_url u) = none) :
    q.add u s src d =
      (true, { q with urls := q.urls ++
        [(normalize_url u, ⟨u, s.getD (score_url u), src, d⟩)] }) := by
  simp [URLQueue.add, h1, h2, hf]

theorem URLQueue.add_dup_higher (q : URLQueue) (u : ParsedURL) (s : Option Int) (src : Str)
    (d : Nat) (kv : Str × ScoredURL) (h1 : should_skip_url u = false)
    (h2 : ¬ normalize_url u ∈ q.fetched)
    (hf : q.urls.find? (fun kv' => kv'.1 = normalize_url u) = some kv)
    (hs : s.getD (score_url u) > kv.2.score) :
    q.add u s src d =
      (false, { q with urls := q.urls.map (fun p =>
        if p.1 = normalize_url u
        then (normalize_url u, ⟨u, s.getD (score_url u), src, d⟩) else p) }) := by
  simp [URLQueue.add, h1, h2, hf, hs]

theorem URLQueue.add_dup_lower (q : URLQueue) (u : ParsedURL) (s : Option Int) (src : Str)
    (d : Nat) (kv : Str × ScoredURL) (h1 : should_skip_url u = false)
    (h2 : ¬ normalize_url u ∈ q.fetched)
    (hf : q.urls.find? (fun kv' => kv'.1 = normalize_url u) = some kv)
    (hs : ¬ s.getD (score_url u) > kv.2.score) :
    q.add u s src d = (false, q) := by
  simp [URLQueue.add, h1, h2, hf, hs]

theorem URLQueue.add_fetched_eq (q : URLQueue) (u : ParsedURL) (s : Option Int) (src : Str)
    (d : Nat) : ((q.add u s src d).2).fetched = q.fetched := by
  by_cases h1 : should_skip_url u = true
  · rw [URLQueue.add_skip q u s src d h1]
  · have h1' : should_skip_url u = false := by simpa using h1
    by_cases h2 : normalize_url u ∈ q.fetched
    · rw [URLQueue.add_already_fetched q u s src d h1' h2]
    · rcases hf : q.urls.find? (fun kv => kv.1 = normalize_url u) with - | kv
      · rw [URLQueue.add_new q u s src d h1' h2 hf]
      · by_cases hs : s.getD (score_url u) > kv.2.score
        · rw [URLQueue.add_dup_higher q u s src d kv h1' h2 hf hs]
        · rw [URLQueue.add_dup_lower q u s src d kv h1' h2 hf hs]

theorem add_many_foldl_fetched (s : Option Int) (src : Str) (d : Nat) :
    ∀ (urls : List ParsedURL) (acc : Nat × URLQueue),
      (urls.foldl (fun acc url =>
        let r := acc.2.add url s src d
        (acc.1 + (if r.1 then 1 else 0), r.2)) acc).2.fetched = acc.2.fetched := by
  intro urls
  induction urls with
  | nil => intro acc; rfl
  | cons u rest ih =>
    intro acc
    simp only [List.foldl_cons]
    rw [ih]
    exact URLQueue.add_fetched_eq acc.2 u s src d

theorem URLQueue.add_many_fetched_eq (q : URLQueue) (urls : List ParsedURL)
    (s : Option Int) (src : Str) (d : Nat) :
    ((q.add_many urls s src d).2).fetched = q.fetched :=
  add_many_foldl_fetched s src d urls (0, q)

theorem wf_mk0 (maxsz : Nat) : (URLQueue.mk0 maxsz).Wf := by
  refine ⟨?_, ?_, ?_, ?_⟩ <;> simp [URLQueue.mk0, URLQueue.Wf]

theorem keys_map_replace (urls : List (Str × ScoredURL)) (n : Str) (e : ScoredURL) :
    (urls.map (fun p => if p.1 = n then (n, e) else p)).map (fun kv => kv.1) =
      urls.map (fun kv => kv.1) := by
  rw [List.map_map]
  apply List.map_congr_left
  intro p _
  by_cases h : p.1 = n <;> simp [h, Function.comp]

theorem wf_add (q : URLQueue) (u : ParsedURL) (s : Option Int) (src : Str)
    (d : Nat) (h : q.Wf) : ((q.add u s src d).2).Wf := by
  obtain ⟨hnd, hdis, hnorm, hfnd⟩ := h
  by_cases h1 : should_skip_url u = true
  · rw [URLQueue.add_skip q u s src d h1]; exact ⟨hnd, hdis, hnorm, hfnd⟩
  · have h1' : should_skip_url u = false := by simpa using h1
    by_cases h2 : normalize_url u ∈ q.fetched
    · rw [URLQueue.add_already_fetched q u s src d h1' h2]; exact ⟨hnd, hdis, hnorm, hfnd⟩
    · rcases hf : q.urls.find? (fun kv => kv.1 = normalize_url u) with - | kv
      · rw [URLQueue.add_new q u s src d h1' h2 hf]
        have hnotin : ∀ kv ∈ q.urls, ¬ kv.1 = normalize_url u := by
          intro kv hkv
          have := List.find?_eq_none.mp hf kv hkv
          simpa using this
        refine ⟨?_, ?_, ?_, hfnd⟩
        · simp only [List.map_append, List.map_cons, List.map_nil]
          rw [List.nodup_append]
          refine ⟨hnd, List.nodup_singleton _, ?_⟩
          intro a ha hb
          simp only [List.mem_singleton] at hb
          subst hb
          obtain ⟨kv, hkv, hkv1⟩ := List.mem_map.mp ha
          exact hnotin kv hkv hkv1
        · intro kv hkv
          rcases List.mem_append.mp hkv with hkv | hkv
          · exact hdis kv hkv
          · simp only [List.mem_singleton] at hkv
            subst hkv
            exact h2
        · intro kv hkv
          rcases List.mem_append.mp hkv with hkv | hkv
          · exact hnorm kv hkv
          · simp only [List.mem_singleton] at hkv
            subst hkv
            rfl
      · by_cases hs : s.getD (score_url u) > kv.2.score
        · rw [URLQueue.add_dup_higher q u s src d kv h1' h2 hf hs]
          refine ⟨?_, ?_, ?_, hfnd⟩
          · rw [keys_map_replace]; exact hnd
          · intro kv' hkv'
            obtain ⟨p, hp, hpe⟩ := List.mem_map.mp hkv'
            by_cases hpn : p.1 = normalize_url u
            · rw [if_pos hpn] at hpe
              rw [← hpe]
              exact hpn ▸ hdis p hp
            · rw [if_neg hpn] at hpe
              rw [← hpe]
              exact hdis p hp
          · intro kv' hkv'
            obtain ⟨p, hp, hpe⟩ := List.mem_map.mp hkv'
            by_cases hpn : p.1 = normalize_url u
            · rw [if_pos hpn] at hpe
              rw [← hpe]
            · rw [if_neg hpn] at hpe
              rw [← hpe]
              exact hnorm p hp
        · rw [URLQueue.add_dup_lower q u s src d kv h1' h2 hf hs]
          exact ⟨hnd, hdis, hnorm, hfnd⟩

theorem mark_fetched_urls (q : URLQueue) (u : ParsedURL) :
    (q.mark_fetched u).urls = q.urls.filter (fun kv => kv.1 ≠ normalize_url u) := rfl

theorem mark_fetched_fetched (q : URLQueue) (u : ParsedURL) :
    (q.mark_fetched u).fetched =
      if normalize_url u ∈ q.fetched then q.fetched
      else normalize_url u :: q.fetched := rfl

theorem mem_mark_fetched_fetched (q : URLQueue) (u : ParsedURL) (x : Str) :
    x ∈ (q.mark_fetched u).fetched ↔ x = normalize_url u ∨ x ∈ q.fetched := by
  rw [mark_fetched_fetched]
  by_cases h : normalize_url u ∈ q.fetched
  · rw [if_pos h]
    constructor
    · exact Or.inr
    · rintro (rfl | hx)
      · exact h
      · exact hx
  · rw [if_neg h]
    exact List.mem_cons

theorem wf_mark_fetched (q : URLQueue) (u : ParsedURL) (h : q.Wf) :
    (q.mark_fetched u).Wf := by
  obtain ⟨hnd, hdis, hnorm, hfnd⟩ := h
  refine ⟨?_, ?_, ?_, ?_⟩
  · rw [mark_fetched_urls]
    exact ((List.filter_sublist _).map _).nodup hnd
  · intro kv hkv
    rw [mark_fetched_urls] at hkv
    rw [mem_mark_fetched_fetched]
    obtain ⟨hmem, hne⟩ := List.mem_filter.mp hkv
    rintro (h | h)
    · exact absurd h (by simpa using hne)
    · exact hdis kv hmem h
  · intro kv hkv
    rw [mark_fetched_urls] at hkv
    exact hnorm kv (List.mem_filter.mp hkv).1
  · rw [mark_fetched_fetched]
    by_cases h : normalize_url u ∈ q.fetched
    · rw [if_pos h]; exact hfnd
    · rw [if_neg h]; exact List.nodup_cons.mpr ⟨h, hfnd⟩

theorem wf_mark_batch_fetched (batch : List ScoredURL) :
    ∀ (q : URLQueue), q.Wf → (q.mark_batch_fetched batch).Wf := by
  induction batch with
  | nil => intro q h; exact h
  | cons e rest ih =>
    intro q h
    exact ih (q.mark_fetched e.url) (wf_mark_fetched q e.url h)

theorem add_many_foldl_Wf (s : Option Int) (src : Str) (d : Nat) :
    ∀ (urls : List ParsedURL) (acc : Nat × URLQueue), acc.2.Wf →
      (urls.foldl (fun acc url =>
        let r := acc.2.add url s src d
        (acc.1 + (if r.1 then 1 else 0), r.2)) acc).2.Wf := by
  intro urls
  induction urls with
  | nil => intro acc h; exact h
  | cons u rest ih =>
    intro acc h
    simp only [List.foldl_cons]
    exact ih _ (wf_add acc.2 u s src d h)

theorem wf_applyQOp (q : URLQueue) (op : QOp) (h : q.Wf) : (applyQOp q op).Wf := by
  cases op with
  | add u s src d => exact wf_add q u s src d h
  | addMany us s src d => exact add_many_foldl_Wf s src d us (0, q) h
  | getBatch n => exact h
  | markFetched u => exact wf_mark_fetched q u h
  | markBatchFetched b => exact wf_mark_batch_fetched b q h

theorem wf_runQOps (ops : List QOp) :
    ∀ (q : URLQueue), q.Wf → (runQOps q ops).Wf := by
  induction ops with
  | nil => intro q h; exact h
  | cons op rest ih =>
    intro q h
    exact ih (applyQOp q op) (wf_applyQOp q op h)

theorem get_batch_mem (q : URLQueue) (n : Nat) (e : ScoredURL) (he : e ∈ q.get_batch n) :
    ∃ kv ∈ q.urls, kv.2 = e ∧ ¬ kv.1 ∈ q.fetched := by
  unfold URLQueue.get_batch at he
  have h1 : e ∈ List.insertionSort batchRel
      ((q.urls.filter (fun kv => ¬ kv.1 ∈ q.fetched)).map (fun kv => kv.2)) :=
    List.take_subset n _ he
  have h2 : e ∈ (q.urls.filter (fun kv => ¬ kv.1 ∈ q.fetched)).map (fun kv => kv.2) :=
    (List.mem_insertionSort batchRel).mp h1
  obtain ⟨kv, hkv, hkve⟩ := List.mem_map.mp h2
  obtain ⟨hmem, hnf⟩ := List.mem_filter.mp hkv
  exact ⟨kv, hmem, hkve, by simpa using hnf⟩

theorem pending_eq_length (q : URLQueue) (h : ∀ kv ∈ q.urls, ¬ kv.1 ∈ q.fetched) :
    q.pending_count = q.urls.length := by
  unfold URLQueue.pending_count
  congr 1
  rw [List.filter_eq_self]
  intro kv hkv
  simpa using h kv hkv

/-- C3: in every queue state reachable by a sequence of API operations from a
fresh queue, no normalized URL is simultaneously pending and fetched; `add`
and `add_many` leave the fetched set unchanged; `get_batch` never returns an
entry whose normalized URL is fetched; and
`pending_count + fetched_count = total_count`. -/
theorem C3_queue_invariants (maxsz : Nat) (ops : List QOp) (q : URLQueue)
    (hq : q = runQOps (URLQueue.mk0 maxsz) ops) :
    (∀ kv ∈ q.urls, ¬ kv.1 ∈ q.fetched) ∧
    (∀ (u : ParsedURL) (s : Option Int) (src : Str) (d : Nat),
      ((q.add u s src d).2).fetched = q.fetched) ∧
    (∀ (us : List ParsedURL) (s : Option Int) (src : Str) (d : Nat),
      ((q.add_many us s src d).2).fetched = q.fetched) ∧
    (∀ (n : Nat), ∀ e ∈ q.get_batch n, ¬ normalize_url e.url ∈ q.fetched) ∧
    q.pending_count + q.fetched_count = q.total_count := by
  have hwf : q.Wf := hq ▸ wf_runQOps ops (URLQueue.mk0 maxsz) (wf_mk0 maxsz)
  obtain ⟨hnd, hdis, hnorm, hfnd⟩ := hwf
  refine ⟨hdis, ?_, ?_, ?_, ?_⟩
  · intro u s src d
    exact URLQueue.add_fetched_eq q u s src d
  · intro us s src d
    exact URLQueue.add_many_fetched_eq q us s src d
  · intro n e he
    obtain ⟨kv, hmem, hkve, hnf⟩ := get_batch_mem q n e he
    rw [← hkve, hnorm kv hmem]
    exact hnf
  · rw [pending_eq_length q hdis]
    rfl

theorem C3_queue_invariants_witness :
    (∀ kv ∈ (runQOps (URLQueue.mk0 25)
        [QOp.add ⟨lit "https", lit "a.com", lit "/docs", [], [], []⟩ (some 5) [] 0,
         QOp.markFetched ⟨lit "https", lit "a.com", lit "/docs", [], [], []⟩]).urls,
      ¬ kv.1 ∈ (runQOps (URLQueue.mk0 25)
        [QOp.add ⟨lit "https", lit "a.com", lit "/docs", [], [], []⟩ (some 5) [] 0,
         QOp.markFetched ⟨lit "https", lit "a.com", lit "/docs", [], [], []⟩]).fetched) ∧
    (runQOps (URLQueue.mk0 25)
        [QOp.add ⟨lit "https", lit "a.com", lit "/docs", [], [], []⟩ (some 5) [] 0,
         QOp.markFetched ⟨lit "https", lit "a.com", lit "/docs", [], [], []⟩]).pending_count +
      (runQOps (URLQueue.mk0 25)
        [QOp.add ⟨lit "https", lit "a.com", lit "/docs", [], [], []⟩ (some 5) [] 0,
         QOp.markFetched ⟨lit "https", lit "a.com", lit "/docs", [], [], []⟩]).fetched_count =
      (runQOps (URLQueue.mk0 25)
        [QOp.add ⟨lit "https", lit "a.com", lit "/docs", [], [], []⟩ (some 5) [] 0,
         QOp.markFetched ⟨lit "https", lit "a.com", lit "/docs", [], [], []⟩]).total_count :=
  ⟨(C3_queue_invariants 25
      [QOp.add ⟨lit "https", lit "a.com", lit "/docs", [], [], []⟩ (some 5) [] 0,
       QOp.markFetched ⟨lit "https", lit "a.com", lit "/docs", [], [], []⟩] _ rfl).1,
   (C3_queue_invariants 25
      [QOp.add ⟨lit "https", lit "a.com", lit "/docs", [], [], []⟩ (some 5) [] 0,
       QOp.markFetched ⟨lit "https", lit "a.com", lit "/docs", [], [], []⟩] _ rfl).2.2.2.2⟩

/-- C6: for a URL that is skipped or whose normalized form is already fetched,
`add` returns false without mutating the queue; a URL whose normalized form is
new is inserted as pending and `add` returns true; a URL whose normalized form
is already pending returns false, replacing the stored entry (URL, score,
provenance, depth) exactly when the effective score is strictly greater than
the stored one and leaving the queue unchanged otherwise. -/
theorem C6_add_semantics (q : URLQueue) (u : ParsedURL) (s : Option Int) (src : Str)
    (d : Nat) :
    (should_skip_url u = true → q.add u s src d = (false, q)) ∧
    (should_skip_url u = false → normalize_url u ∈ q.fetched →
      q.add u s src d = (false, q)) ∧
    (should_skip_url u = false → ¬ normalize_url u ∈ q.fetched →
      q.urls.find? (fun kv => kv.1 = normalize_url u) = none →
      q.add u s src d =
        (true, { q with urls := q.urls ++
          [(normalize_url u, ⟨u, s.getD (score_url u), src, d⟩)] })) ∧
    (∀ kv, should_skip_url u = false → ¬ normalize_url u ∈ q.fetched →
      q.urls.find? (fun kv' => kv'.1 = normalize_url u) = some kv →
      (q.add u s src d).1 = false ∧
      (s.getD (score_url u) > kv.2.score →
        (q.add u s src d).2 = { q with urls := q.urls.map (fun p =>
          if p.1 = normalize_url u
          then (normalize_url u, ⟨u, s.getD (score_url u), src, d⟩) else p) }) ∧
      (¬ s.getD (score_url u) > kv.2.score → q.add u s src d = (false, q))) := by
  refine ⟨?_, ?_, ?_, ?_⟩
  · intro h1; exact URLQueue.add_skip q u s src d h1
  · intro h1 h2; exact URLQueue.add_already_fetched q u s src d h1 h2
  · intro h1 h2 hf; exact URLQueue.add_new q u s src d h1 h2 hf
  · intro kv h1 h2 hf
    refine ⟨?_, ?_, ?_⟩
    · by_cases hs : s.getD (score_url u) > kv.2.score
      · rw [URLQueue.add_dup_higher q u s src d kv h1 h2 hf hs]
      · rw [URLQueue.add_dup_lower q u s src d kv h1 h2 hf hs]
    · intro hs
      rw [URLQueue.add_dup_higher q u s src d kv h1 h2 hf hs]
    · intro hs
      exact URLQueue.add_dup_lower q u s src d kv h1 h2 hf hs

theorem C6_add_semantics_witness :
    (URLQueue.mk0 25).add ⟨lit "https", lit "a.com", lit "/docs", [], [], []⟩
        (some 2) [] 0 =
      (true, ⟨25, [(lit "https://a.com/docs",
        ⟨⟨lit "https", lit "a.com", lit "/docs", [], [], []⟩, 2, [], 0⟩)], []⟩) ∧
    (URLQueue.mk (25 : Nat) [(lit "https://a.com/docs",
        ⟨⟨lit "https", lit "a.com", lit "/docs", [], [], []⟩, 2, [], 0⟩)] []).add
        ⟨lit "https", lit "a.com", lit "/docs", [], [], []⟩ (some 5) [] 0 =
      (false, ⟨25, [(lit "https://a.com/docs",
        ⟨⟨lit "https", lit "a.com", lit "/docs", [], [], []⟩, 5, [], 0⟩)], []⟩) := by
  constructor
  · have h := (C6_add_semantics (URLQueue.mk0 25)
      ⟨lit "https", lit "a.com", lit "/docs", [], [], []⟩ (some 2) [] 0).2.2.1
      (by decide) (by decide) (by decide)
    rw [h]
    decide
  · have h := (C6_add_semantics
      (URLQueue.mk (25 : Nat) [(lit "https://a.com/docs",
        ⟨⟨lit "https", lit "a.com", lit "/docs", [], [], []⟩, 2, [], 0⟩)] [])
      ⟨lit "https", lit "a.com", lit "/docs", [], [], []⟩ (some 5) [] 0).2.2.2
      (lit "https://a.com/docs",
        ⟨⟨lit "https", lit "a.com", lit "/docs", [], [], []⟩, 2, [], 0⟩)
      (by decide) (by decide) (by decide)
    have h1 := h.1
    have h2 := h.2.1 (by decide)
    have hsplit : (URLQueue.mk (25 : Nat) [(lit "https://a.com/docs",
        ⟨⟨lit "https", lit "a.com", lit "/docs", [], [], []⟩, 2, [], 0⟩)] []).add
        ⟨lit "https", lit "a.com", lit "/docs", [], [], []⟩ (some 5) [] 0 =
        (((URLQueue.mk (25 : Nat) [(lit "https://a.com/docs",
          ⟨⟨lit "https", lit "a.com", lit "/docs", [], [], []⟩, 2, [], 0⟩)] []).add
          ⟨lit "https", lit "a.com", lit "/docs", [], [], []⟩ (some 5) [] 0).1,
         ((URLQueue.mk (25 : Nat) [(lit "https://a.com/docs",
          ⟨⟨lit "https", lit "a.com", lit "/docs", [], [], []⟩, 2, [], 0⟩)] []).add
          ⟨lit "https", lit "a.com", lit "/docs", [], [], []⟩ (some 5) [] 0).2) := rfl
    rw [hsplit, h1, h2]
    decide

/-- C8 counterexample: for `ftp://example.com` (non-http scheme, empty path,
no fragment) the claimed flat disjunction is true (the scheme is neither http,
https nor empty) yet `should_skip_url` returns false, because the code decides
URLs with an empty or root path by the anchor-only test alone and never
reaches the scheme test for them. -/
theorem C8_counterexample :
    spec_should_skip ⟨lit "ftp", lit "example.com", [], [], [], []⟩ = true ∧
    should_skip_url ⟨lit "ftp", lit "example.com", [], [], [], []⟩ = false := by
  decide

/-- C8 (amended): `should_skip_url` is true iff — when the lowercased path is
empty or "/" — the URL carries a fragment and no query (regardless of scheme
or extension); and otherwise iff the lowercased path with a trailing slash
contains a skip pattern, or the scheme is neither http, https nor empty, or
the lowercased path ends in a blocked download extension. -/
theorem C8_should_skip_amended (p : ParsedURL) :
    should_skip_url p = true ↔
      (if toLowerS p.path = [] ∨ toLowerS p.path = ['/'] then
        p.fragment ≠ [] ∧ p.query = []
      else
        (∃ pat ∈ SKIP_PATH_PATTERNS, hasSub pat
          (if endsWithS (toLowerS p.path) ['/'] = true then toLowerS p.path
           else toLowerS p.path ++ ['/']) = true) ∨
        ¬ (p.scheme = lit "http" ∨ p.scheme = lit "https" ∨ p.scheme = []) ∨
        (∃ ext ∈ SKIP_EXTS, endsWithS (toLowerS p.path) ext = true)) := by
  unfold should_skip_url
  by_cases hroot : toLowerS p.path = [] ∨ toLowerS p.path = ['/']
  · rw [if_pos hroot, if_pos hroot]
    simp [Bool.and_eq_true, decide_eq_true_eq]
  · rw [if_neg hroot, if_neg hroot]
    by_cases hpat : SKIP_PATH_PATTERNS.any (fun s => hasSub s
        (if endsWithS (toLowerS p.path) ['/'] = true then toLowerS p.path
         else toLowerS p.path ++ ['/'])) = true
    · rw [if_pos hpat]
      simp only [true_iff]
      exact Or.inl (by simpa [List.any_eq_true] using hpat)
    · rw [if_neg hpat]
      by_cases hscheme : ¬ (p.scheme = lit "http" ∨ p.scheme = lit "https" ∨ p.scheme = [])
      · rw [if_pos hscheme]
        simp only [true_iff]
        exact Or.inr (Or.inl hscheme)
      · rw [if_neg hscheme]
        constructor
        · intro hext
          exact Or.inr (Or.inr (by simpa [List.any_eq_true] using hext))
        · rintro (h | h | h)
          · exact absurd (List.any_eq_true.mpr (by simpa [List.any_eq_true] using h)) hpat
          · exact absurd h hscheme
          · exact List.any_eq_true.mpr (by simpa [List.any_eq_true] using h)

theorem C8_should_skip_amended_witness :
    should_skip_url ⟨lit "https", lit "stripe.com", lit "/blog/x", [], [], []⟩ = true ∧
    should_skip_url ⟨lit "https", lit "docs.stripe.com", lit "/api/charges", [], [], []⟩ =
      false :=
  ⟨(C8_should_skip_amended ⟨lit "https", lit "stripe.com", lit "/blog/x", [], [], []⟩).mpr
     (by decide),
   by
    have h := C8_should_skip_amended
      ⟨lit "https", lit "docs.stripe.com", lit "/api/charges", [], [], []⟩
    by_cases hs : should_skip_url
        ⟨lit "https", lit "docs.stripe.com", lit "/api/charges", [], [], []⟩ = true
    · exact absurd (h.mp hs) (by decide)
    · simpa using hs⟩

theorem pctDecode_cons_ne (c : Char) (t : Str) (hc : c ≠ '%') :
    pctDecode (c :: t) = c :: pctDecode t := by
  rw [pctDecode.eq_def]
  split
  · simp_all
  · rename_i a b t2 heq
    injection heq with h1 h2
    subst h1
    exact absurd rfl hc
  · rename_i t' heq h1 h2
    injection h2 with ha hb
    rw [ha, hb]

theorem pctDecode_no_pct : ∀ (s : Str), (∀ ch ∈ s, ch ≠ '%') → pctDecode s = s := by
  intro s
  induction s with
  | nil => intro _; rfl
  | cons c t ih =>
    intro h
    rw [pctDecode_cons_ne c t (h c (List.mem_cons_self c t))]
    rw [ih (fun ch hch => h ch (List.mem_cons_of_mem c hch))]

theorem unquotePlus_id (s : Str) (h : ∀ ch ∈ s, ch ≠ '%' ∧ ch ≠ '+') :
    unquotePlusS s = s := by
  unfold unquotePlusS
  have hmap : s.map (fun c => if c = '+' then ' ' else c) = s := by
    have : s.map (fun c => if c = '+' then ' ' else c) = s.map id := by
      apply List.map_congr_left
      intro ch hch
      simp [if_neg (h ch hch).2]
    rw [this, List.map_id]
  rw [hmap]
  exact pctDecode_no_pct s (fun ch hch => (h ch hch).1)

theorem quoteSafe_ne (ch : Char) (h : quoteSafe ch = true) :
    ch ≠ '%' ∧ ch ≠ '+' ∧ ch ≠ '&' ∧ ch ≠ '=' := by
  refine ⟨?_, ?_, ?_, ?_⟩ <;> rintro rfl <;> exact absurd h (by decide)

theorem quotePlus_safe (s : Str) (h : ∀ ch ∈ s, quoteSafe ch = true) :
    quotePlus s = s := by
  induction s with
  | nil => rfl
  | cons c t ih =>
    unfold quotePlus
    simp only [List.foldr_cons]
    rw [if_pos (h c (List.mem_cons_self c t))]
    have := ih (fun ch hch => h ch (List.mem_cons_of_mem c hch))
    unfold quotePlus at this
    rw [this]

theorem isPrefixOf_append_self : ∀ (l m : Str), l.isPrefixOf (l ++ m) = true := by
  intro l
  induction l with
  | nil => intro m; cases m <;> rfl
  | cons c t ih =>
    intro m
    show (c == c && t.isPrefixOf (t ++ m)) = true
    simp [ih m]

theorem endsWith_append (a b : Str) : endsWithS (a ++ b) b = true := by
  unfold endsWithS List.isSuffixOf
  rw [List.reverse_append]
  exact isPrefixOf_append_self b.reverse a.reverse

theorem dropRight_append (a b : Str) : dropRightS (a ++ b) b.length = a := by
  unfold dropRightS
  rw [List.length_append, Nat.add_sub_cancel]
  exact List.take_left a b

theorem rstrip_append_slash (s : Str) : rstripSlash (s ++ ['/']) = rstripSlash s := by
  unfold rstripSlash
  rw [List.reverse_append]
  rfl

theorem splitAux_append (c : Char) (t : Str) :
    ∀ (s : Str) (acc : Str),
      splitOnCharAux c (s ++ c :: t) acc = splitOnCharAux c s acc ++ splitOnChar c t := by
  intro s
  induction s with
  | nil =>
    intro acc
    simp [splitOnCharAux, splitOnChar]
  | cons x s' ih =>
    intro acc
    show splitOnCharAux c (x :: (s' ++ c :: t)) acc =
      splitOnCharAux c (x :: s') acc ++ splitOnChar c t
    by_cases hx : x = c
    · simp only [splitOnCharAux, if_pos hx]
      rw [ih [], List.cons_append]
    · simp only [splitOnCharAux, if_neg hx]
      rw [ih (x :: acc)]

theorem splitOnChar_append (c : Char) (s t : Str) :
    splitOnChar c (s ++ c :: t) = splitOnChar c s ++ splitOnChar c t :=
  splitAux_append c t s []

theorem splitAux_no_sep (c : Char) :
    ∀ (s : Str) (acc : Str), (∀ ch ∈ s, ch ≠ c) →
      splitOnCharAux c s acc = [acc.reverse ++ s] := by
  intro s
  induction s with
  | nil => intro acc _; simp [splitOnCharAux]
  | cons x s' ih =>
    intro acc h
    have hx : x ≠ c := h x (List.mem_cons_self x s')
    simp only [splitOnCharAux, if_neg hx]
    rw [ih (x :: acc) (fun ch hch => h ch (List.mem_cons_of_mem x hch))]
    simp

theorem splitOnChar_no_sep (c : Char) (s : Str) (h : ∀ ch ∈ s, ch ≠ c) :
    splitOnChar c s = [s] := by
  unfold splitOnChar
  rw [splitAux_no_sep c s [] h]
  rfl

theorem splitOnChar_cons_sep (c : Char) (s : Str) :
    splitOnChar c (c :: s) = [] :: splitOnChar c s := by
  unfold splitOnChar
  simp [splitOnCharAux]

theorem splitFirstEq_no_eq_append (v : Str) :
    ∀ (k : Str), (∀ ch ∈ k, ch ≠ '=') → splitFirstEq (k ++ '=' :: v) = some (k, v) := by
  intro k
  induction k with
  | nil => intro _; simp [splitFirstEq]
  | cons x k' ih =>
    intro h
    have hx : x ≠ '=' := h x (List.mem_cons_self x k')
    show splitFirstEq (x :: (k' ++ '=' :: v)) = some (x :: k', v)
    simp only [splitFirstEq, if_neg hx]
    rw [ih (fun ch hch => h ch (List.mem_cons_of_mem x hch))]
    rfl

theorem parse_qsl_append (q f : Str) :
    parse_qsl (q ++ '&' :: f) = parse_qsl q ++ parse_qsl f := by
  unfold parse_qsl
  rw [splitOnChar_append, List.filterMap_append]

theorem parse_qsl_single (k v : Str) (hk : ∀ ch ∈ k, ch ≠ '&' ∧ ch ≠ '=')
    (hv : ∀ ch ∈ v, ch ≠ '&') :
    parse_qsl (k ++ '=' :: v) = [(unquotePlusS k, unquotePlusS v)] := by
  unfold parse_qsl
  have hno : ∀ ch ∈ k ++ '=' :: v, ch ≠ '&' := by
    intro ch hch
    rcases List.mem_append.mp hch with h | h
    · exact (hk ch h).1
    · rcases List.mem_cons.mp h with rfl | h
      · decide
      · exact hv ch h
  rw [splitOnChar_no_sep '&' _ hno]
  have hne : k ++ '=' :: v ≠ [] := by simp
  simp only [List.filterMap, hne, if_neg hne]
  rw [splitFirstEq_no_eq_append v k (fun ch hch => (hk ch hch).2)]
  rfl

theorem filter_qsStep_tracking (acc : List (Str × List Str)) (kv : Str × Str)
    (hkt : toLowerS kv.1 ∈ TRACKING_PARAMS) :
    (qsStep acc kv).filter (fun g => ¬ toLowerS g.1 ∈ TRACKING_PARAMS) =
      acc.filter (fun g => ¬ toLowerS g.1 ∈ TRACKING_PARAMS) := by
  unfold qsStep
  by_cases hany : acc.any (fun g => g.1 = kv.1) = true
  · rw [if_pos hany, List.filter_map]
    have hcongr : acc.filter ((fun g : Str × List Str =>
        ¬ toLowerS g.1 ∈ TRACKING_PARAMS) ∘
          (fun g => if g.1 = kv.1 then (g.1, g.2 ++ [kv.2]) else g)) =
        acc.filter (fun g => ¬ toLowerS g.1 ∈ TRACKING_PARAMS) := by
      apply List.filter_congr
      intro g _
      by_cases hg : g.1 = kv.1 <;> simp [Function.comp, hg]
    rw [hcongr]
    have hid : (acc.filter (fun g => ¬ toLowerS g.1 ∈ TRACKING_PARAMS)).map
        (fun g => if g.1 = kv.1 then (g.1, g.2 ++ [kv.2]) else g) =
        acc.filter (fun g => ¬ toLowerS g.1 ∈ TRACKING_PARAMS) := by
      have : ∀ g ∈ acc.filter (fun g => ¬ toLowerS g.1 ∈ TRACKING_PARAMS),
          (if g.1 = kv.1 then (g.1, g.2 ++ [kv.2]) else g) = g := by
        intro g hg
        have hpred := List.of_mem_filter hg
        simp only [decide_eq_true_eq] at hpred
        have hne : g.1 ≠ kv.1 := by
          intro he
          exact hpred (he ▸ hkt)
        rw [if_neg hne]
      calc (acc.filter (fun g => ¬ toLowerS g.1 ∈ TRACKING_PARAMS)).map
            (fun g => if g.1 = kv.1 then (g.1, g.2 ++ [kv.2]) else g)
          = (acc.filter (fun g => ¬ toLowerS g.1 ∈ TRACKING_PARAMS)).map id := by
            apply List.map_congr_left
            intro g hg
            simpa using this g hg
        _ = _ := List.map_id _
    rw [hid]
  · rw [if_neg hany, List.filter_append]
    have : List.filter (fun g : Str × List Str =>
        ¬ toLowerS g.1 ∈ TRACKING_PARAMS) [(kv.1, [kv.2])] = [] := by
      simp [hkt]
    rw [this, List.append_nil]

theorem parse_qsl_nil : parse_qsl [] = [] := rfl

theorem tracking_key_chars (k : Str) (hkt : toLowerS k ∈ TRACKING_PARAMS) :
    ∀ ch ∈ k, ch ≠ '&' ∧ ch ≠ '=' ∧ ch ≠ '%' ∧ ch ≠ '+' := by
  intro ch hch
  have hm : lowerChar ch ∈ toLowerS k := List.mem_map_of_mem lowerChar hch
  simp only [TRACKING_PARAMS, List.mem_cons, List.not_mem_nil, or_false] at hkt
  refine ⟨?_, ?_, ?_, ?_⟩ <;> rintro rfl <;>
    (rcases hkt with h | h | h | h | h | h | h | h | h | h | h <;>
      rw [h] at hm <;> exact absurd hm (by decide))

theorem unquotePlus_tracking (k : Str) (hkt : toLowerS k ∈ TRACKING_PARAMS) :
    unquotePlusS k = k :=
  unquotePlus_id k (fun ch hch => ⟨(tracking_key_chars k hkt ch hch).2.2.1,
    (tracking_key_chars k hkt ch hch).2.2.2⟩)

theorem parse_qsl_tracking_single (k v : Str) (hkt : toLowerS k ∈ TRACKING_PARAMS)
    (hv : ∀ ch ∈ v, ch ≠ '&') :
    parse_qsl (k ++ '=' :: v) = [(k, unquotePlusS v)] := by
  rw [parse_qsl_single k v (fun ch hch => ⟨(tracking_key_chars k hkt ch hch).1,
    (tracking_key_chars k hkt ch hch).2.1⟩) hv, unquotePlus_tracking k hkt]

theorem filter_qsStep_nontracking (acc : List (Str × List Str)) (kv : Str × Str)
    (hkt : ¬ toLowerS kv.1 ∈ TRACKING_PARAMS) :
    (qsStep acc kv).filter (fun g => ¬ toLowerS g.1 ∈ TRACKING_PARAMS) =
      qsStep (acc.filter (fun g => ¬ toLowerS g.1 ∈ TRACKING_PARAMS)) kv := by
  have hiff : ((acc.filter (fun g => ¬ toLowerS g.1 ∈ TRACKING_PARAMS)).any
      (fun g => g.1 = kv.1) = true) ↔ (acc.any (fun g => g.1 = kv.1) = true) := by
    simp only [List.any_eq_true, List.mem_filter, decide_eq_true_eq]
    constructor
    · rintro ⟨g, ⟨hg, -⟩, hgk⟩
      exact ⟨g, hg, hgk⟩
    · rintro ⟨g, hg, hgk⟩
      exact ⟨g, ⟨hg, by rw [hgk]; exact hkt⟩, hgk⟩
  by_cases hany : acc.any (fun g => g.1 = kv.1) = true
  · have hany' := hiff.mpr hany
    unfold qsStep
    rw [if_pos hany, if_pos hany', List.filter_map]
    have hcongr : acc.filter ((fun g : Str × List Str =>
        ¬ toLowerS g.1 ∈ TRACKING_PARAMS) ∘
          (fun g => if g.1 = kv.1 then (g.1, g.2 ++ [kv.2]) else g)) =
        acc.filter (fun g => ¬ toLowerS g.1 ∈ TRACKING_PARAMS) := by
      apply List.filter_congr
      intro g _
      by_cases hg : g.1 = kv.1 <;> simp [Function.comp, hg]
    rw [hcongr]
  · have hany' : ¬ ((acc.filter (fun g => ¬ toLowerS g.1 ∈ TRACKING_PARAMS)).any
        (fun g => g.1 = kv.1) = true) := fun h => hany (hiff.mp h)
    unfold qsStep
    rw [if_neg hany, if_neg hany', List.filter_append]
    have hkeep : List.filter (fun g : Str × List Str =>
        ¬ toLowerS g.1 ∈ TRACKING_PARAMS) [(kv.1, [kv.2])] = [(kv.1, [kv.2])] := by
      simp [hkt]
    rw [hkeep]

theorem filter_foldl_qsStep :
    ∀ (L : List (Str × Str)) (acc1 acc2 : List (Str × List Str)),
      acc1.filter (fun g => ¬ toLowerS g.1 ∈ TRACKING_PARAMS) =
        acc2.filter (fun g => ¬ toLowerS g.1 ∈ TRACKING_PARAMS) →
      (L.foldl qsStep acc1).filter (fun g => ¬ toLowerS g.1 ∈ TRACKING_PARAMS) =
        (L.foldl qsStep acc2).filter (fun g => ¬ toLowerS g.1 ∈ TRACKING_PARAMS) := by
  intro L
  induction L with
  | nil => intro _ _ h; exact h
  | cons kv rest ih =>
    intro acc1 acc2 h
    simp only [List.foldl_cons]
    apply ih
    by_cases hkt : toLowerS kv.1 ∈ TRACKING_PARAMS
    · rw [filter_qsStep_tracking acc1 kv hkt, filter_qsStep_tracking acc2 kv hkt, h]
    · rw [filter_qsStep_nontracking acc1 kv hkt, filter_qsStep_nontracking acc2 kv hkt, h]

theorem normQuery_congr (q q' : Str)
    (h : (parse_qs q).filter (fun kv => ¬ toLowerS kv.1 ∈ TRACKING_PARAMS) =
      (parse_qs q').filter (fun kv => ¬ toLowerS kv.1 ∈ TRACKING_PARAMS)) :
    normQuery q = normQuery q' := by
  unfold normQuery
  by_cases hq : q = [] <;> by_cases hq' : q' = []
  · rw [if_neg (not_not_intro hq), if_neg (not_not_intro hq')]
  · have h0 : (parse_qs q').filter (fun kv => ¬ toLowerS kv.1 ∈ TRACKING_PARAMS) = [] := by
      rw [← h, hq]; rfl
    rw [if_neg (not_not_intro hq), if_pos hq', if_neg (not_not_intro h0)]
  · have h0 : (parse_qs q).filter (fun kv => ¬ toLowerS kv.1 ∈ TRACKING_PARAMS) = [] := by
      rw [h, hq']; rfl
    rw [if_pos hq, if_neg (not_not_intro hq'), if_neg (not_not_intro h0)]
  · rw [if_pos hq, if_pos hq', h]

theorem normalize_drop_tracking_first (p : ParsedURL) (k v q2 : Str)
    (hkt : toLowerS k ∈ TRACKING_PARAMS) (hv : ∀ ch ∈ v, ch ≠ '&') :
    normalize_url { p with query := (k ++ '=' :: v) ++ '&' :: q2 } =
      normalize_url { p with query := q2 } := by
  have hfilt : (parse_qs ((k ++ '=' :: v) ++ '&' :: q2)).filter
      (fun kv => ¬ toLowerS kv.1 ∈ TRACKING_PARAMS) =
      (parse_qs q2).filter (fun kv => ¬ toLowerS kv.1 ∈ TRACKING_PARAMS) := by
    unfold parse_qs
    rw [parse_qsl_append, parse_qsl_tracking_single k v hkt hv]
    simp only [List.cons_append, List.nil_append, List.foldl_cons]
    exact filter_foldl_qsStep (parse_qsl q2) (qsStep [] (k, unquotePlusS v)) []
      (filter_qsStep_tracking [] (k, unquotePlusS v) hkt)
  have hq := normQuery_congr _ _ hfilt
  simp only [normalize_url]
  rw [hq]

theorem normalize_drop_tracking_mid (p : ParsedURL) (k v q1 q2 : Str)
    (hkt : toLowerS k ∈ TRACKING_PARAMS) (hv : ∀ ch ∈ v, ch ≠ '&') :
    normalize_url { p with query := q1 ++ '&' :: ((k ++ '=' :: v) ++ '&' :: q2) } =
      normalize_url { p with query := q1 ++ '&' :: q2 } := by
  have hfilt : (parse_qs (q1 ++ '&' :: ((k ++ '=' :: v) ++ '&' :: q2))).filter
      (fun kv => ¬ toLowerS kv.1 ∈ TRACKING_PARAMS) =
      (parse_qs (q1 ++ '&' :: q2)).filter
        (fun kv => ¬ toLowerS kv.1 ∈ TRACKING_PARAMS) := by
    unfold parse_qs
    rw [parse_qsl_append q1 ((k ++ '=' :: v) ++ '&' :: q2),
      parse_qsl_append (k ++ '=' :: v) q2, parse_qsl_tracking_single k v hkt hv,
      parse_qsl_append q1 q2]
    simp only [List.foldl_append, List.cons_append, List.nil_append,
      List.foldl_cons, List.foldl_nil]
    exact filter_foldl_qsStep (parse_qsl q2)
      (qsStep (List.foldl qsStep [] (parse_qsl q1)) (k, unquotePlusS v))
      (List.foldl qsStep [] (parse_qsl q1))
      (filter_qsStep_tracking (List.foldl qsStep [] (parse_qsl q1))
        (k, unquotePlusS v) hkt)
  have hq := normQuery_congr _ _ hfilt
  simp only [normalize_url]
  rw [hq]

theorem normalize_drop_tracking_alone (p : ParsedURL) (k v : Str)
    (hkt : toLowerS k ∈ TRACKING_PARAMS) (hv : ∀ ch ∈ v, ch ≠ '&') :
    normalize_url { p with query := k ++ '=' :: v } =
      normalize_url { p with query := [] } := by
  have hfilt : (parse_qs (k ++ '=' :: v)).filter
      (fun kv => ¬ toLowerS kv.1 ∈ TRACKING_PARAMS) =
      (parse_qs ([] : Str)).filter (fun kv => ¬ toLowerS kv.1 ∈ TRACKING_PARAMS) := by
    unfold parse_qs
    rw [parse_qsl_tracking_single k v hkt hv, parse_qsl_nil]
    simp only [List.foldl_cons, List.foldl_nil]
    exact filter_qsStep_tracking [] (k, unquotePlusS v) hkt
  have hq := normQuery_congr _ _ hfilt
  simp only [normalize_url]
  rw [hq]

theorem normalize_drop_tracking (p : ParsedURL) (k v : Str)
    (hk : ∀ ch ∈ k, ch ≠ '&' ∧ ch ≠ '=') (hkq : unquotePlusS k = k)
    (hkt : toLowerS k ∈ TRACKING_PARAMS) (hv : ∀ ch ∈ v, ch ≠ '&') :
    normalize_url { p with query := p.query ++ '&' :: (k ++ '=' :: v) } =
      normalize_url p := by
  have hfil : (parse_qs (p.query ++ '&' :: (k ++ '=' :: v))).filter
      (fun g => ¬ toLowerS g.1 ∈ TRACKING_PARAMS) =
      (parse_qs p.query).filter (fun g => ¬ toLowerS g.1 ∈ TRACKING_PARAMS) := by
    unfold parse_qs
    rw [parse_qsl_append, parse_qsl_single k v hk hv, hkq, List.foldl_append]
    simp only [List.foldl_cons, List.foldl_nil]
    exact filter_qsStep_tracking _ (k, unquotePlusS v) hkt
  have hne : p.query ++ '&' :: (k ++ '=' :: v) ≠ [] := by simp
  have hquery : normQuery (p.query ++ '&' :: (k ++ '=' :: v)) = normQuery p.query := by
    unfold normQuery
    rw [if_pos hne, hfil]
    by_cases hq : p.query = []
    · rw [hq]
      simp [parse_qs, parse_qsl_nil]
    · rw [if_pos hq]
  simp only [normalize_url]
  rw [hquery]

theorem urlunparse_query (s n pa par q : Str) (hq : q ≠ []) :
    urlunparse s n pa par q [] = urlunparse s n pa par [] [] ++ '?' :: q := by
  unfold urlunparse
  simp [hq]

theorem normalize_keep_param (p : ParsedURL) (k v : Str)
    (hk : ∀ ch ∈ k, quoteSafe ch = true) (hv : ∀ ch ∈ v, quoteSafe ch = true)
    (hkt : ¬ toLowerS k ∈ TRACKING_PARAMS) :
    normalize_url { p with query := k ++ '=' :: v } =
      normalize_url { p with query := [] } ++ '?' :: (k ++ '=' :: v) := by
  have hqsl : parse_qsl (k ++ '=' :: v) = [(k, v)] := by
    rw [parse_qsl_single k v
      (fun ch hch => ⟨((quoteSafe_ne ch (hk ch hch)).2.2.1), ((quoteSafe_ne ch (hk ch hch)).2.2.2)⟩)
      (fun ch hch => (quoteSafe_ne ch (hv ch hch)).2.2.1)]
    rw [unquotePlus_id k (fun ch hch => ⟨(quoteSafe_ne ch (hk ch hch)).1,
        (quoteSafe_ne ch (hk ch hch)).2.1⟩),
      unquotePlus_id v (fun ch hch => ⟨(quoteSafe_ne ch (hv ch hch)).1,
        (quoteSafe_ne ch (hv ch hch)).2.1⟩)]
  have hqs : parse_qs (k ++ '=' :: v) = [(k, [v])] := by
    unfold parse_qs
    rw [hqsl]
    rfl
  have hfil : (parse_qs (k ++ '=' :: v)).filter
      (fun g => ¬ toLowerS g.1 ∈ TRACKING_PARAMS) = [(k, [v])] := by
    rw [hqs]
    simp [hkt]
  have henc : urlencodeDoseq [(k, [v])] = k ++ '=' :: v := by
    unfold urlencodeDoseq
    simp only [List.foldr_cons, List.foldr_nil, List.map_cons, List.map_nil,
      List.nil_append]
    rw [quotePlus_safe k hk, quotePlus_safe v hv]
    simp [intercalateS]
  have hne : k ++ '=' :: v ≠ [] := by simp
  have hquery : normQuery (k ++ '=' :: v) = k ++ '=' :: v := by
    unfold normQuery
    rw [if_pos hne, hfil, if_pos (by simp : ([(k, [v])] : List (Str × List Str)) ≠ []), henc]
  have hquery0 : normQuery [] = [] := rfl
  simp only [normalize_url]
  rw [hquery, hquery0, urlunparse_query _ _ _ _ _ hne]

/-- C7 counterexample: `utm_id` is a utm-prefixed query parameter yet survives
normalization (only the five named utm parameters are stripped), and a path
with two trailing slashes loses both (the code strips all trailing slashes,
not a single one — a single-slash strip would yield "/docs/"). -/
theorem C7_counterexample :
    normalize_url ⟨lit "https", lit "x.com", lit "/docs", [], lit "utm_id=1", []⟩ =
      lit "https://x.com/docs?utm_id=1" ∧
    normalize_url ⟨lit "https", lit "x.com", lit "/docs//", [], [], []⟩ =
      lit "https://x.com/docs" := by
  decide

/-- C7 (amended): `normalize_url` ignores the fragment; lowercases scheme and
host (URLs differing only in scheme/host case normalize identically); strips
all trailing slashes from the path while an all-slash or empty path normalizes
like the root path "/"; strips the default port ":443" on https and ":80" on
http; removes exactly the named tracking parameters utm_source, utm_medium,
utm_campaign, utm_term, utm_content, ref, source, fbclid, gclid, mc_cid,
mc_eid — matched case-insensitively (the key's lowercasing is in the list) and
at any position of the query: as the last parameter, the first parameter, an
inner parameter, or the only parameter; preserves and re-encodes other query
parameters; and never strips the root path "/" to an empty path — a root-path
URL keeps the path component "/" verbatim in its normalized form, and the
normalized path component is never the empty string. -/
theorem C7_normalize_amended (p : ParsedURL) :
    (∀ f : Str, normalize_url { p with fragment := f } = normalize_url p) ∧
    (∀ q : ParsedURL, toLowerS p.scheme = toLowerS q.scheme →
      toLowerS p.netloc = toLowerS q.netloc → p.path = q.path → p.params = q.params →
      p.query = q.query → normalize_url p = normalize_url q) ∧
    (normalize_url { p with path := p.path ++ ['/'] } = normalize_url p) ∧
    (rstripSlash p.path = [] → normalize_url p = normalize_url { p with path := ['/'] }) ∧
    (toLowerS p.scheme = lit "https" → endsWithS (toLowerS p.netloc) (lit ":443") = false →
      normalize_url { p with netloc := p.netloc ++ lit ":443" } = normalize_url p) ∧
    (toLowerS p.scheme = lit "http" → endsWithS (toLowerS p.netloc) (lit ":80") = false →
      normalize_url { p with netloc := p.netloc ++ lit ":80" } = normalize_url p) ∧
    (∀ k v : Str, toLowerS k ∈ TRACKING_PARAMS → (∀ ch ∈ v, ch ≠ '&') →
      normalize_url { p with query := p.query ++ '&' :: (k ++ '=' :: v) } =
        normalize_url p) ∧
    (∀ k v : Str, (∀ ch ∈ k, quoteSafe ch = true) → (∀ ch ∈ v, quoteSafe ch = true) →
      ¬ toLowerS k ∈ TRACKING_PARAMS →
      normalize_url { p with query := k ++ '=' :: v } =
        normalize_url { p with query := [] } ++ '?' :: (k ++ '=' :: v)) ∧
    (∀ k v q2 : Str, toLowerS k ∈ TRACKING_PARAMS → (∀ ch ∈ v, ch ≠ '&') →
      normalize_url { p with query := (k ++ '=' :: v) ++ '&' :: q2 } =
        normalize_url { p with query := q2 }) ∧
    (∀ k v q1 q2 : Str, toLowerS k ∈ TRACKING_PARAMS → (∀ ch ∈ v, ch ≠ '&') →
      normalize_url { p with query := q1 ++ '&' :: ((k ++ '=' :: v) ++ '&' :: q2) } =
        normalize_url { p with query := q1 ++ '&' :: q2 }) ∧
    (∀ k v : Str, toLowerS k ∈ TRACKING_PARAMS → (∀ ch ∈ v, ch ≠ '&') →
      normalize_url { p with query := k ++ '=' :: v } =
        normalize_url { p with query := [] }) ∧
    (p.path = lit "/" → normalize_url p =
      urlunparse (toLowerS p.scheme) (normPort (toLowerS p.scheme) (toLowerS p.netloc))
        (lit "/") p.params (normQuery p.query) []) ∧
    (∀ pa : Str, normPath pa ≠ []) := by
  refine ⟨?_, ?_, ?_, ?_, ?_, ?_, ?_, ?_, ?_, ?_, ?_, ?_, ?_⟩
  · intro f; rfl
  · intro q h1 h2 h3 h4 h5
    simp only [normalize_url, h1, h2, h3, h4, h5]
  · have hpath : normPath (p.path ++ ['/']) = normPath p.path := by
      unfold normPath
      rw [rstrip_append_slash]
    simp only [normalize_url]
    rw [hpath]
  · intro hroot
    have h1 : normPath p.path = ['/'] := by unfold normPath; rw [if_pos hroot]
    have h2 : normPath ['/'] = ['/'] := by decide
    simp only [normalize_url]
    rw [h1, h2]
  · intro hsch hport
    have hlow : toLowerS (p.netloc ++ lit ":443") = toLowerS p.netloc ++ lit ":443" := by
      unfold toLowerS
      rw [List.map_append]
      congr 1
    have hlen : (lit ":443").length = 4 := by decide
    have hc1 : ¬ (toLowerS p.scheme = lit "https" ∧
        endsWithS (toLowerS p.netloc) (lit ":443") = true) := by
      rintro ⟨-, h2⟩
      rw [hport] at h2
      exact absurd h2 (by decide)
    have hc2 : ¬ (toLowerS p.scheme = lit "http" ∧
        endsWithS (toLowerS p.netloc) (lit ":80") = true) := by
      rintro ⟨h1, -⟩
      rw [hsch] at h1
      exact absurd h1 (by decide)
    have hleft : normPort (toLowerS p.scheme) (toLowerS (p.netloc ++ lit ":443")) =
        toLowerS p.netloc := by
      rw [hlow]
      unfold normPort
      rw [if_pos ⟨hsch, endsWith_append (toLowerS p.netloc) (lit ":443")⟩, ← hlen,
        dropRight_append]
    have hright : normPort (toLowerS p.scheme) (toLowerS p.netloc) = toLowerS p.netloc := by
      unfold normPort
      rw [if_neg hc1, if_neg hc2]
    simp only [normalize_url]
    rw [hleft, hright]
  · intro hsch hport
    have hlow : toLowerS (p.netloc ++ lit ":80") = toLowerS p.netloc ++ lit ":80" := by
      unfold toLowerS
      rw [List.map_append]
      congr 1
    have hlen : (lit ":80").length = 3 := by decide
    have hc1 : ¬ (toLowerS p.scheme = lit "https" ∧
        endsWithS (toLowerS p.netloc ++ lit ":80") (lit ":443") = true) := by
      rintro ⟨h1, -⟩
      rw [hsch] at h1
      exact absurd h1 (by decide)
    have hc1' : ¬ (toLowerS p.scheme = lit "https" ∧
        endsWithS (toLowerS p.netloc) (lit ":443") = true) := by
      rintro ⟨h1, -⟩
      rw [hsch] at h1
      exact absurd h1 (by decide)
    have hc2 : ¬ (toLowerS p.scheme = lit "http" ∧
        endsWithS (toLowerS p.netloc) (lit ":80") = true) := by
      rintro ⟨-, h2⟩
      rw [hport] at h2
      exact absurd h2 (by decide)
    have hleft : normPort (toLowerS p.scheme) (toLowerS (p.netloc ++ lit ":80")) =
        toLowerS p.netloc := by
      rw [hlow]
      unfold normPort
      rw [if_neg hc1,
        if_pos ⟨hsch, endsWith_append (toLowerS p.netloc) (lit ":80")⟩, ← hlen,
        dropRight_append]
    have hright : normPort (toLowerS p.scheme) (toLowerS p.netloc) = toLowerS p.netloc := by
      unfold normPort
      rw [if_neg hc1', if_neg hc2]
    simp only [normalize_url]
    rw [hleft, hright]
  · intro k v hkt hv
    exact normalize_drop_tracking p k v
      (fun ch hch => ⟨(tracking_key_chars k hkt ch hch).1,
        (tracking_key_chars k hkt ch hch).2.1⟩)
      (unquotePlus_tracking k hkt) hkt hv
  · intro k v hk hv hkt
    exact normalize_keep_param p k v hk hv hkt
  · intro k v q2 hkt hv
    exact normalize_drop_tracking_first p k v q2 hkt hv
  · intro k v q1 q2 hkt hv
    exact normalize_drop_tracking_mid p k v q1 q2 hkt hv
  · intro k v hkt hv
    exact normalize_drop_tracking_alone p k v hkt hv
  · intro hpath
    have hroot : normPath (lit "/") = lit "/" := by decide
    simp only [normalize_url]
    rw [hpath, hroot]
  · intro pa
    unfold normPath
    by_cases h : rstripSlash pa = []
    · rw [if_pos h]
      simp
    · rw [if_neg h]
      exact h

theorem C7_normalize_amended_witness :
    normalize_url ⟨lit "https", lit "x.com", lit "/docs",
        [], lit "a=1" ++ '&' :: (lit "utm_source" ++ '=' :: lit "g"), []⟩ =
      normalize_url ⟨lit "https", lit "x.com", lit "/docs", [], lit "a=1", []⟩ ∧
    normalize_url ⟨lit "https", lit "x.com", lit "/docs" ++ ['/'], [], [], []⟩ =
      normalize_url ⟨lit "https", lit "x.com", lit "/docs", [], [], []⟩ ∧
    normalize_url ⟨lit "https", lit "x.com", lit "/docs",
        [], lit "page" ++ '=' :: lit "1", []⟩ =
      normalize_url ⟨lit "https", lit "x.com", lit "/docs", [], [], []⟩ ++
        '?' :: (lit "page" ++ '=' :: lit "1") ∧
    normalize_url ⟨lit "https", lit "x.com", lit "/docs",
        [], lit "a=1" ++ '&' :: ((lit "UTM_Source" ++ '=' :: lit "g") ++
          '&' :: lit "b=2"), []⟩ =
      normalize_url ⟨lit "https", lit "x.com", lit "/docs",
        [], lit "a=1" ++ '&' :: lit "b=2", []⟩ ∧
    normalize_url ⟨lit "https", lit "x.com", lit "/docs",
        [], (lit "FBclid" ++ '=' :: lit "z") ++ '&' :: lit "a=1", []⟩ =
      normalize_url ⟨lit "https", lit "x.com", lit "/docs", [], lit "a=1", []⟩ ∧
    normalize_url ⟨lit "https", lit "x.com", lit "/", [], [], []⟩ =
      urlunparse (toLowerS (lit "https"))
        (normPort (toLowerS (lit "https")) (toLowerS (lit "x.com")))
        (lit "/") [] (normQuery []) [] :=
  ⟨(C7_normalize_amended
      ⟨lit "https", lit "x.com", lit "/docs", [], lit "a=1", []⟩).2.2.2.2.2.2.1
     (lit "utm_source") (lit "g") (by decide) (by decide),
   (C7_normalize_amended ⟨lit "https", lit "x.com", lit "/docs", [], [], []⟩).2.2.1,
   (C7_normalize_amended
      ⟨lit "https", lit "x.com", lit "/docs", [], [], []⟩).2.2.2.2.2.2.2.1
     (lit "page") (lit "1") (by decide) (by decide) (by decide),
   (C7_normalize_amended
      ⟨lit "https", lit "x.com", lit "/docs", [], [], []⟩).2.2.2.2.2.2.2.2.2.1
     (lit "UTM_Source") (lit "g") (lit "a=1") (lit "b=2") (by decide) (by decide),
   (C7_normalize_amended
      ⟨lit "https", lit "x.com", lit "/docs", [], [], []⟩).2.2.2.2.2.2.2.2.1
     (lit "FBclid") (lit "z") (lit "a=1") (by decide) (by decide),
   (C7_normalize_amended
      ⟨lit "https", lit "x.com", lit "/", [], [], []⟩).2.2.2.2.2.2.2.2.2.2.2.1 rfl⟩

theorem foldl_add_fetched (sc : Option Int) (src : Str) (d : Nat) :
    ∀ (links : List ParsedURL) (q : URLQueue),
      (links.foldl (fun acc link => (acc.add link sc src d).2) q).fetched = q.fetched := by
  intro links
  induction links with
  | nil => intro q; rfl
  | cons l rest ih =>
    intro q
    simp only [List.foldl_cons]
    rw [ih]
    exact URLQueue.add_fetched_eq q l sc src d

theorem foldl_add_wf (sc : Option Int) (src : Str) (d : Nat) :
    ∀ (links : List ParsedURL) (q : URLQueue), q.Wf →
      (links.foldl (fun acc link => (acc.add link sc src d).2) q).Wf := by
  intro links
  induction links with
  | nil => intro q h; exact h
  | cons l rest ih =>
    intro q h
    simp only [List.foldl_cons]
    exact ih _ (wf_add q l sc src d h)

theorem processResult_spec (env : CrawlEnv) (s : LoopState) (u : ParsedURL) :
    (processResult env s u).stats.urls_fetched = s.stats.urls_fetched + 1 ∧
    (processResult env s u).stats.urls_skipped_disallowed =
      s.stats.urls_skipped_disallowed ∧
    (((processResult env s u).pages = s.pages ∧
      (processResult env s u).queue = s.queue ∧
      (processResult env s u).seen_texts = s.seen_texts ∧
      (processResult env s u).stats.soft_failures + (processResult env s u).stats.urls_failed +
          (processResult env s u).stats.urls_skipped_dedup =
        s.stats.soft_failures + s.stats.urls_failed + s.stats.urls_skipped_dedup + 1) ∨
     ((env.fetch u).success = true ∧
      (∀ seen ∈ s.seen_texts, env.similarGt90 (env.extract u).text seen = false) ∧
      (processResult env s u).pages = s.pages ++
        [⟨u, (env.extract u).title, (env.extract u).text.take 50000,
          (env.extract u).word_count, (env.fetch u).from_cache,
          (env.fetch u).fetch_time_ms⟩] ∧
      (processResult env s u).seen_texts =
        s.seen_texts ++ [(env.extract u).text.take 5000] ∧
      (processResult env s u).queue = (env.extract u).links.foldl (fun acc link =>
        (acc.add link (some SCORE_OFFICIAL_GUIDE) (lit "crawled:" ++ u.render) 1).2)
        s.queue ∧
      (processResult env s u).stats.soft_failures = s.stats.soft_failures ∧
      (processResult env s u).stats.urls_failed = s.stats.urls_failed ∧
      (processResult env s u).stats.urls_skipped_dedup = s.stats.urls_skipped_dedup)) := by
  by_cases hsucc : (env.fetch u).success = true
  · by_cases hdup : s.seen_texts.any
        (fun seen => env.similarGt90 (env.extract u).text seen) = true
    · refine ⟨?_, ?_, Or.inl ⟨?_, ?_, ?_, ?_⟩⟩ <;>
        · simp only [processResult, hsucc, hdup]
          by_cases hc : (env.fetch u).from_cache = true <;> simp [hc] <;> omega
    · have hdup' : ∀ seen ∈ s.seen_texts,
          env.similarGt90 (env.extract u).text seen = false := by
        intro seen hseen
        rcases Bool.eq_false_or_eq_true (env.similarGt90 (env.extract u).text seen) with h | h
        · exact absurd (List.any_eq_true.mpr ⟨seen, hseen, h⟩) hdup
        · exact h
      refine ⟨?_, ?_, Or.inr ⟨hsucc, hdup', ?_, ?_, ?_, ?_, ?_, ?_⟩⟩ <;>
        · simp only [processResult, hsucc, hdup]
          by_cases hc : (env.fetch u).from_cache = true <;> simp [hc]
  · by_cases herr : (env.fetch u).error = lit "soft_failure" <;>
      · refine ⟨?_, ?_, Or.inl ⟨?_, ?_, ?_, ?_⟩⟩ <;>
          · simp only [processResult, hsucc, herr]
            by_cases hc : (env.fetch u).from_cache = true <;> simp [hc] <;> omega

theorem processResult_fetched (env : CrawlEnv) (s : LoopState) (u : ParsedURL) :
    (processResult env s u).queue.fetched = s.queue.fetched := by
  rcases (processResult_spec env s u).2.2 with ⟨-, hq, -, -⟩ | ⟨-, -, -, -, hq, -⟩
  · rw [hq]
  · rw [hq, foldl_add_fetched]

theorem processResult_wf (env : CrawlEnv) (s : LoopState) (u : ParsedURL)
    (h : s.queue.Wf) : (processResult env s u).queue.Wf := by
  rcases (processResult_spec env s u).2.2 with ⟨-, hq, -, -⟩ | ⟨-, -, -, -, hq, -⟩
  · rw [hq]; exact h
  · rw [hq]; exact foldl_add_wf _ _ _ _ s.queue h

theorem processResult_pages_mono (env : CrawlEnv) (s : LoopState) (u : ParsedURL) :
    s.pages.length ≤ (processResult env s u).pages.length := by
  rcases (processResult_spec env s u).2.2 with ⟨hp, -, -, -⟩ | ⟨-, -, hp, -, -, -⟩
  · rw [hp]
  · rw [hp]; simp

theorem foldPR_fetched (env : CrawlEnv) :
    ∀ (l : List ParsedURL) (s : LoopState),
      (l.foldl (processResult env) s).queue.fetched = s.queue.fetched := by
  intro l
  induction l with
  | nil => intro s; rfl
  | cons u rest ih =>
    intro s
    simp only [List.foldl_cons]
    rw [ih, processResult_fetched]

theorem foldPR_wf (env : CrawlEnv) :
    ∀ (l : List ParsedURL) (s : LoopState), s.queue.Wf →
      (l.foldl (processResult env) s).queue.Wf := by
  intro l
  induction l with
  | nil => intro s h; exact h
  | cons u rest ih =>
    intro s h
    simp only [List.foldl_cons]
    exact ih _ (processResult_wf env s u h)

theorem foldPR_pages_mono (env : CrawlEnv) :
    ∀ (l : List ParsedURL) (s : LoopState),
      s.pages.length ≤ (l.foldl (processResult env) s).pages.length := by
  intro l
  induction l with
  | nil => intro s; exact Nat.le_refl _
  | cons u rest ih =>
    intro s
    simp only [List.foldl_cons]
    exact Nat.le_trans (processResult_pages_mono env s u) (ih _)

theorem foldPR_stall (env : CrawlEnv) :
    ∀ (l : List ParsedURL) (s : LoopState),
      (l.foldl (processResult env) s).pages.length = s.pages.length →
      (l.foldl (processResult env) s).pages = s.pages ∧
      (l.foldl (processResult env) s).queue = s.queue := by
  intro l
  induction l with
  | nil => intro s _; exact ⟨rfl, rfl⟩
  | cons u rest ih =>
    intro s hlen
    simp only [List.foldl_cons] at hlen ⊢
    rcases (processResult_spec env s u).2.2 with ⟨hp, hq, -, -⟩ | ⟨-, -, hp, -, -, -⟩
    · have hlen' : (rest.foldl (processResult env) (processResult env s u)).pages.length =
          (processResult env s u).pages.length := by
        rw [hp]; exact hlen
      obtain ⟨h1, h2⟩ := ih (processResult env s u) hlen'
      exact ⟨h1.trans hp, h2.trans hq⟩
    · exfalso
      have h1 := foldPR_pages_mono env rest (processResult env s u)
      rw [hp] at h1
      simp only [List.length_append, List.length_cons, List.length_nil] at h1
      omega

theorem filter_length_lt (p : Str × ScoredURL → Bool) :
    ∀ (l : List (Str × ScoredURL)) (x : Str × ScoredURL), x ∈ l → p x = false →
      (l.filter p).length < l.length := by
  intro l
  induction l with
  | nil => intro x hx _; cases hx
  | cons a t ih =>
    intro x hx hpx
    rcases List.mem_cons.mp hx with rfl | hx
    · rw [List.filter_cons, hpx]
      exact Nat.lt_succ_of_le (List.length_filter_le p t)
    · rw [List.filter_cons]
      by_cases hpa : p a = true
      · rw [hpa]
        simpa using ih x hx hpx
      · rw [Bool.eq_false_iff.mpr hpa]
        exact Nat.lt_succ_of_lt (ih x hx hpx)

theorem mark_batch_urls_le :
    ∀ (batch : List ScoredURL) (q : URLQueue),
      (q.mark_batch_fetched batch).urls.length ≤ q.urls.length := by
  intro batch
  induction batch with
  | nil => intro q; exact Nat.le_refl _
  | cons b rest ih =>
    intro q
    refine Nat.le_trans (ih (q.mark_fetched b.url)) ?_
    rw [mark_fetched_urls]
    exact List.length_filter_le _ _

theorem mark_batch_urls_lt :
    ∀ (batch : List ScoredURL) (q : URLQueue),
      (∃ e ∈ batch, ∃ kv ∈ q.urls, kv.1 = normalize_url e.url) →
      (q.mark_batch_fetched batch).urls.length < q.urls.length := by
  intro batch
  induction batch with
  | nil => rintro q ⟨e, he, -⟩; cases he
  | cons b rest ih =>
    rintro q ⟨e, he, kv, hkv, hkey⟩
    by_cases hk : kv.1 = normalize_url b.url
    · refine Nat.lt_of_le_of_lt (mark_batch_urls_le rest (q.mark_fetched b.url)) ?_
      rw [mark_fetched_urls]
      refine filter_length_lt _ q.urls kv hkv ?_
      simp [hk]
    · rcases List.mem_cons.mp he with rfl | he
      · exact absurd hkey hk
      · have hkv' : kv ∈ (q.mark_fetched b.url).urls := by
          rw [mark_fetched_urls]
          exact List.mem_filter.mpr ⟨hkv, by simpa using hk⟩
        refine Nat.lt_of_lt_of_le (ih (q.mark_fetched b.url) ⟨e, he, kv, hkv', hkey⟩) ?_
        rw [mark_fetched_urls]
        exact List.length_filter_le _ _

theorem mark_batch_pending_lt (q : URLQueue) (n : Nat) (hwf : q.Wf)
    (hne : q.get_batch n ≠ []) :
    (q.mark_batch_fetched (q.get_batch n)).pending_count < q.pending_count := by
  obtain ⟨e, he⟩ : ∃ e, e ∈ q.get_batch n := by
    cases hb : q.get_batch n with
    | nil => exact absurd hb hne
    | cons x t => exact ⟨x, hb ▸ List.mem_cons_self x t⟩
  obtain ⟨kv, hkv, hkve, -⟩ := get_batch_mem q n e he
  have hkey : kv.1 = normalize_url e.url := by
    rw [← hwf.2.2.1 kv hkv, hkve]
  refine Nat.lt_of_le_of_lt (List.length_filter_le _ _) ?_
  calc (q.mark_batch_fetched (q.get_batch n)).urls.length
      < q.urls.length := mark_batch_urls_lt (q.get_batch n) q ⟨e, he, kv, hkv, hkey⟩
    _ = q.pending_count := (pending_eq_length q hwf.2.1).symm

theorem crawlStep_guard_false (cfg : ScrapeConfig) (env : CrawlEnv) (s : LoopState)
    (h : ¬ (0 < s.queue.pending_count ∧ s.pages.length < cfg.max_urls)) :
    crawlStep cfg env s = none := by
  unfold crawlStep
  rw [if_neg h]

theorem crawlStep_batch_empty (cfg : ScrapeConfig) (env : CrawlEnv) (s : LoopState)
    (hg : 0 < s.queue.pending_count ∧ s.pages.length < cfg.max_urls)
    (hb : stepBatch cfg s = []) : crawlStep cfg env s = none := by
  unfold crawlStep
  rw [if_pos hg, if_pos hb]

theorem crawlStep_disallowed_branch (cfg : ScrapeConfig) (env : CrawlEnv) (s : LoopState)
    (hg : 0 < s.queue.pending_count ∧ s.pages.length < cfg.max_urls)
    (hb : ¬ stepBatch cfg s = []) (hu : stepFetchList env (stepBatch cfg s) = []) :
    crawlStep cfg env s = some (stepMarked env s (stepBatch cfg s)) := by
  unfold crawlStep
  rw [if_pos hg, if_neg hb, if_pos hu]

theorem crawlStep_fetch_branch (cfg : ScrapeConfig) (env : CrawlEnv) (s : LoopState)
    (hg : 0 < s.queue.pending_count ∧ s.pages.length < cfg.max_urls)
    (hb : ¬ stepBatch cfg s = []) (hu : ¬ stepFetchList env (stepBatch cfg s) = []) :
    crawlStep cfg env s = some ((stepFetchList env (stepBatch cfg s)).foldl
      (processResult env) (stepMarked env s (stepBatch cfg s))) := by
  unfold crawlStep
  rw [if_pos hg, if_neg hb, if_neg hu]

theorem crawlStep_decrease (cfg : ScrapeConfig) (env : CrawlEnv) (s s' : LoopState)
    (hwf : s.queue.Wf) (h : crawlStep cfg env s = some s') :
    (s.pages.length < s'.pages.length ∧ s.pages.length < cfg.max_urls) ∨
    (s'.pages = s.pages ∧ s'.queue.pending_count < s.queue.pending_count) := by
  by_cases hg : 0 < s.queue.pending_count ∧ s.pages.length < cfg.max_urls
  · by_cases hb : stepBatch cfg s = []
    · rw [crawlStep_batch_empty cfg env s hg hb] at h; cases h
    · by_cases hu : stepFetchList env (stepBatch cfg s) = []
      · rw [crawlStep_disallowed_branch cfg env s hg hb hu] at h
        injection h with h
        subst h
        right
        exact ⟨rfl, mark_batch_pending_lt s.queue cfg.concurrency hwf hb⟩
      · rw [crawlStep_fetch_branch cfg env s hg hb hu] at h
        injection h with h
        subst h
        by_cases hlen : ((stepFetchList env (stepBatch cfg s)).foldl (processResult env)
            (stepMarked env s (stepBatch cfg s))).pages.length = s.pages.length
        · obtain ⟨hp, hq⟩ := foldPR_stall env (stepFetchList env (stepBatch cfg s))
            (stepMarked env s (stepBatch cfg s)) hlen
          right
          refine ⟨hp, ?_⟩
          rw [hq]
          exact mark_batch_pending_lt s.queue cfg.concurrency hwf hb
        · left
          refine ⟨?_, hg.2⟩
          have hmono := foldPR_pages_mono env (stepFetchList env (stepBatch cfg s))
            (stepMarked env s (stepBatch cfg s))
          have : s.pages.length ≤ ((stepFetchList env (stepBatch cfg s)).foldl
              (processResult env) (stepMarked env s (stepBatch cfg s))).pages.length :=
            hmono
          omega
  · rw [crawlStep_guard_false cfg env s hg] at h; cases h

theorem crawlStep_wf (cfg : ScrapeConfig) (env : CrawlEnv) (s s' : LoopState)
    (hwf : s.queue.Wf) (h : crawlStep cfg env s = some s') : s'.queue.Wf := by
  by_cases hg : 0 < s.queue.pending_count ∧ s.pages.length < cfg.max_urls
  · by_cases hb : stepBatch cfg s = []
    · rw [crawlStep_batch_empty cfg env s hg hb] at h; cases h
    · by_cases hu : stepFetchList env (stepBatch cfg s) = []
      · rw [crawlStep_disallowed_branch cfg env s hg hb hu] at h
        injection h with h
        subst h
        exact wf_mark_batch_fetched (stepBatch cfg s) s.queue hwf
      · rw [crawlStep_fetch_branch cfg env s hg hb hu] at h
        injection h with h
        subst h
        exact foldPR_wf env _ _ (wf_mark_batch_fetched (stepBatch cfg s) s.queue hwf)
  · rw [crawlStep_guard_false cfg env s hg] at h; cases h

theorem mark_fetched_fetched_mono (q : URLQueue) (u : ParsedURL) (x : Str)
    (h : x ∈ q.fetched) : x ∈ (q.mark_fetched u).fetched :=
  (mem_mark_fetched_fetched q u x).mpr (Or.inr h)

theorem mark_batch_fetched_mono :
    ∀ (batch : List ScoredURL) (q : URLQueue) (x : Str), x ∈ q.fetched →
      x ∈ (q.mark_batch_fetched batch).fetched := by
  intro batch
  induction batch with
  | nil => intro q x h; exact h
  | cons b rest ih =>
    intro q x h
    exact ih (q.mark_fetched b.url) x (mark_fetched_fetched_mono q b.url x h)

theorem mark_batch_fetched_mem :
    ∀ (batch : List ScoredURL) (q : URLQueue) (e : ScoredURL), e ∈ batch →
      normalize_url e.url ∈ (q.mark_batch_fetched batch).fetched := by
  intro batch
  induction batch with
  | nil => intro q e he; cases he
  | cons b rest ih =>
    intro q e he
    rcases List.mem_cons.mp he with rfl | he
    · exact mark_batch_fetched_mono rest (q.mark_fetched e.url) (normalize_url e.url)
        ((mem_mark_fetched_fetched q e.url (normalize_url e.url)).mpr (Or.inl rfl))
    · exact ih (q.mark_fetched b.url) e he

theorem crawlStep_marks (cfg : ScrapeConfig) (env : CrawlEnv) (s s' : LoopState)
    (h : crawlStep cfg env s = some s') :
    ∀ e ∈ stepBatch cfg s, normalize_url e.url ∈ s'.queue.fetched := by
  intro e he
  by_cases hg : 0 < s.queue.pending_count ∧ s.pages.length < cfg.max_urls
  · by_cases hb : stepBatch cfg s = []
    · rw [crawlStep_batch_empty cfg env s hg hb] at h; cases h
    · by_cases hu : stepFetchList env (stepBatch cfg s) = []
      · rw [crawlStep_disallowed_branch cfg env s hg hb hu] at h
        injection h with h
        subst h
        exact mark_batch_fetched_mem (stepBatch cfg s) s.queue e he
      · rw [crawlStep_fetch_branch cfg env s hg hb hu] at h
        injection h with h
        subst h
        rw [foldPR_fetched]
        exact mark_batch_fetched_mem (stepBatch cfg s) s.queue e he
  · rw [crawlStep_guard_false cfg env s hg] at h; cases h

theorem crawl_terminates (cfg : ScrapeConfig) (env : CrawlEnv) :
    ∀ (a b : Nat) (s : LoopState), s.queue.Wf →
      cfg.max_urls - s.pages.length = a → s.queue.pending_count = b →
      ∃ n, crawlStep cfg env (crawlRun cfg env n s) = none := by
  intro a
  induction a using Nat.strong_induction_on with
  | _ a iha =>
    intro b
    induction b using Nat.strong_induction_on with
    | _ b ihb =>
      intro s hwf ha hb
      cases hstep : crawlStep cfg env s with
      | none => exact ⟨0, hstep⟩
      | some s' =>
        have hwf' := crawlStep_wf cfg env s s' hwf hstep
        have hrun : ∀ n, crawlRun cfg env (n + 1) s = crawlRun cfg env n s' := by
          intro n
          simp [crawlRun, hstep]
        rcases crawlStep_decrease cfg env s s' hwf hstep with ⟨hlt, hmax⟩ | ⟨hp, hpend⟩
        · obtain ⟨n, hn⟩ := iha (cfg.max_urls - s'.pages.length) (by omega)
            s'.queue.pending_count s' hwf' rfl rfl
          exact ⟨n + 1, by rw [hrun n]; exact hn⟩
        · have ha' : cfg.max_urls - s'.pages.length = a := by
            rw [hp]
            exact ha
          obtain ⟨n, hn⟩ := ihb s'.queue.pending_count (by omega) s' hwf' ha' rfl
          exact ⟨n + 1, by rw [hrun n]; exact hn⟩

/-- C1: the fetch-and-expand loop always terminates — from any well-formed
state some finite number of iterations reaches loop exit, whatever the
fetch/extraction outcomes and however many new URLs link expansion enqueues;
every continuing iteration marks its entire dequeued batch fetched in the
queue; and once the accepted page count reaches `config.max_urls` the loop
exits immediately, pending entries notwithstanding. -/
theorem C1_loop_termination (cfg : ScrapeConfig) (env : CrawlEnv) :
    (∀ s : LoopState, s.queue.Wf →
      ∃ n, crawlStep cfg env (crawlRun cfg env n s) = none) ∧
    (∀ s s' : LoopState, crawlStep cfg env s = some s' →
      ∀ e ∈ s.queue.get_batch cfg.concurrency, normalize_url e.url ∈ s'.queue.fetched) ∧
    (∀ s : LoopState, cfg.max_urls ≤ s.pages.length → crawlStep cfg env s = none) := by
  refine ⟨?_, ?_, ?_⟩
  · intro s hwf
    exact crawl_terminates cfg env (cfg.max_urls - s.pages.length)
      s.queue.pending_count s hwf rfl rfl
  · intro s s' h e he
    exact crawlStep_marks cfg env s s' h e he
  · intro s h
    exact crawlStep_guard_false cfg env s (by omega)

theorem C1_loop_termination_witness :
    (∃ n, crawlStep cfgW envW (crawlRun cfgW envW n (initialLoopState queueW)) = none) ∧
    crawlStep ⟨0, 5, 3, 2, 1, 21600, 5⟩ envW (initialLoopState queueW) = none :=
  ⟨(C1_loop_termination cfgW envW).1 (initialLoopState queueW)
     ⟨by decide, by decide, by decide, by decide⟩,
   (C1_loop_termination ⟨0, 5, 3, 2, 1, 21600, 5⟩ envW).2.2 (initialLoopState queueW)
     (by decide)⟩

theorem crawlInv_processResult (env : CrawlEnv) (s : LoopState) (u : ParsedURL)
    (hinv : CrawlInv env s) (hdis : is_disallowed u env.disallowed_paths = false) :
    CrawlInv env (processResult env s u) := by
  obtain ⟨hseen, hprov, hpair, hstats⟩ := hinv
  obtain ⟨hf, -, hrest⟩ := processResult_spec env s u
  rcases hrest with ⟨hp, hq, hsn, hbal⟩ | ⟨hsucc, hdup, hp, hsn, hq, h1, h2, h3⟩
  · refine ⟨?_, ?_, ?_, ?_⟩
    · rw [hsn, hp]; exact hseen
    · rw [hp]; exact hprov
    · rw [hp]; exact hpair
    · rw [hf, hp]; omega
  · refine ⟨?_, ?_, ?_, ?_⟩
    · rw [hsn, hp, List.map_append, hseen]
      rfl
    · rw [hp]
      intro pg hpg
      rcases List.mem_append.mp hpg with hpg | hpg
      · exact hprov pg hpg
      · simp only [List.mem_singleton] at hpg
        subst hpg
        exact ⟨hsucc, hdis⟩
    · rw [hp, List.pairwise_append]
      refine ⟨hpair, List.pairwise_singleton _ _, ?_⟩
      intro a ha b hb
      simp only [List.mem_singleton] at hb
      subst hb
      refine hdup _ ?_
      rw [hseen]
      exact List.mem_map.mpr ⟨a, ha, rfl⟩
    · rw [hf, hp, h1, h2, h3]
      simp only [List.length_append, List.length_cons, List.length_nil]
      omega

theorem crawlInv_stepMarked (env : CrawlEnv) (s : LoopState) (batch : List ScoredURL)
    (hinv : CrawlInv env s) : CrawlInv env (stepMarked env s batch) :=
  hinv

theorem crawlInv_foldPR (env : CrawlEnv) :
    ∀ (l : List ParsedURL) (s : LoopState), CrawlInv env s →
      (∀ u ∈ l, is_disallowed u env.disallowed_paths = false) →
      CrawlInv env (l.foldl (processResult env) s) := by
  intro l
  induction l with
  | nil => intro s h _; exact h
  | cons u rest ih =>
    intro s h hdis
    simp only [List.foldl_cons]
    exact ih _ (crawlInv_processResult env s u h (hdis u (List.mem_cons_self u rest)))
      (fun v hv => hdis v (List.mem_cons_of_mem u hv))

theorem stepFetchList_not_disallowed (env : CrawlEnv) (batch : List ScoredURL) :
    ∀ u ∈ stepFetchList env batch, is_disallowed u env.disallowed_paths = false := by
  intro u hu
  obtain ⟨e, he, heu⟩ := List.mem_map.mp hu
  have := List.of_mem_filter he
  rw [← heu]
  simpa using this

theorem crawlInv_crawlStep (cfg : ScrapeConfig) (env : CrawlEnv) (s s' : LoopState)
    (hinv : CrawlInv env s) (h : crawlStep cfg env s = some s') : CrawlInv env s' := by
  by_cases hg : 0 < s.queue.pending_count ∧ s.pages.length < cfg.max_urls
  · by_cases hb : stepBatch cfg s = []
    · rw [crawlStep_batch_empty cfg env s hg hb] at h; cases h
    · by_cases hu : stepFetchList env (stepBatch cfg s) = []
      · rw [crawlStep_disallowed_branch cfg env s hg hb hu] at h
        injection h with h
        subst h
        exact crawlInv_stepMarked env s (stepBatch cfg s) hinv
      · rw [crawlStep_fetch_branch cfg env s hg hb hu] at h
        injection h with h
        subst h
        exact crawlInv_foldPR env (stepFetchList env (stepBatch cfg s))
          (stepMarked env s (stepBatch cfg s))
          (crawlInv_stepMarked env s (stepBatch cfg s) hinv)
          (stepFetchList_not_disallowed env (stepBatch cfg s))
  · rw [crawlStep_guard_false cfg env s hg] at h; cases h

theorem crawlInv_crawlRun (cfg : ScrapeConfig) (env : CrawlEnv) :
    ∀ (n : Nat) (s : LoopState), CrawlInv env s → CrawlInv env (crawlRun cfg env n s) := by
  intro n
  induction n with
  | zero => intro s h; exact h
  | succ n ih =>
    intro s h
    unfold crawlRun
    cases hstep : crawlStep cfg env s with
    | none => exact h
    | some s' => exact ih s' (crawlInv_crawlStep cfg env s s' h hstep)

theorem crawlInv_initial (env : CrawlEnv) (q0 : URLQueue) :
    CrawlInv env (initialLoopState q0) := by
  refine ⟨rfl, ?_, List.Pairwise.nil, rfl⟩
  intro pg hpg
  cases hpg

/-- C10: in the final report the top-level `urls_fetched` list is exactly the
url fields of the page records in order; every page record in the report was
fetched successfully and was not robots-disallowed (so failed, soft-failed and
disallowed URLs never appear in `urls_fetched`); accepted pages are pairwise
non-similar (so dedup-skipped fetches never appear); and the
`stats.urls_fetched` counter counts every processed result — accepted pages
plus soft failures plus hard failures plus dedup skips. -/
theorem C10_report_urls (cfg : ScrapeConfig) (env : CrawlEnv) (q0 : URLQueue) (n : Nat)
    (s : LoopState) (hs : s = crawlRun cfg env n (initialLoopState q0)) :
    (mkReport s).urls_fetched = (mkReport s).pages.map (fun pg => pg.url) ∧
    (∀ pg ∈ (mkReport s).pages, (env.fetch pg.url).success = true ∧
      is_disallowed pg.url env.disallowed_paths = false) ∧
    List.Pairwise (fun a b => env.similarGt90 (env.extract b.url).text
      ((env.extract a.url).text.take 5000) = false) (mkReport s).pages ∧
    (mkReport s).stats.urls_fetched = (mkReport s).pages.length +
      (mkReport s).stats.soft_failures + (mkReport s).stats.urls_failed +
      (mkReport s).stats.urls_skipped_dedup := by
  have hinv : CrawlInv env s := by
    rw [hs]
    exact crawlInv_crawlRun cfg env n (initialLoopState q0) (crawlInv_initial env q0)
  exact ⟨rfl, hinv.2.1, hinv.2.2.1, hinv.2.2.2⟩

theorem C10_report_urls_witness :
    (mkReport (crawlRun cfgW envW 3 (initialLoopState queueW))).urls_fetched =
      (mkReport (crawlRun cfgW envW 3 (initialLoopState queueW))).pages.map
        (fun pg => pg.url) ∧
    (∀ pg ∈ (mkReport (crawlRun cfgW envW 3 (initialLoopState queueW))).pages,
      (envW.fetch pg.url).success = true ∧
      is_disallowed pg.url envW.disallowed_paths = false) ∧
    List.Pairwise (fun a b => envW.similarGt90 (envW.extract b.url).text
      ((envW.extract a.url).text.take 5000) = false)
      (mkReport (crawlRun cfgW envW 3 (initialLoopState queueW))).pages ∧
    (mkReport (crawlRun cfgW envW 3 (initialLoopState queueW))).stats.urls_fetched =
      (mkReport (crawlRun cfgW envW 3 (initialLoopState queueW))).pages.length +
      (mkReport (crawlRun cfgW envW 3 (initialLoopState queueW))).stats.soft_failures +
      (mkReport (crawlRun cfgW envW 3 (initialLoopState queueW))).stats.urls_failed +
      (mkReport (crawlRun cfgW envW 3 (initialLoopState queueW))).stats.urls_skipped_dedup :=
  C10_report_urls cfgW envW queueW 3 (crawlRun cfgW envW 3 (initialLoopState queueW)) rfl
